import Mathlib

/-!
srrg_planner2d: the `Planner` header (`src/srrg_planner2d/planner.h`)

A shallow embedding of the inline members of `srrg_planner::Planner`:
the path-map parameter setters and readers, the `velocities` reader and the
two coordinate conversions `world2grid` / `grid2world`.

Number model.  A stored C++ `float` is modelled by the rational number it
holds (`ℚ`), so stored values are finite.  Arithmetic on floats is IEEE 754
binary32 arithmetic: every operation computes the exact rational result and
rounds it once to the nearest binary32 value, ties to even (`round32`), with
gradual underflow below `2^-126` and overflow to an infinity from `2^128` on;
the result of an operation is an `F32`, which is a finite value, an infinity
or a NaN.  The two zeros of binary32 compare equal and are not told apart.
A C++ `int` is a 32-bit integer: the conversion `float → int` discards the
fractional part and is undefined (`none`) when the truncated value does not
fit in `[-2^31, 2^31)` or the operand is not finite; the conversion
`int → float` rounds to binary32.

Members of `Planner` whose types are declared in other headers (images,
`PathMap`, the two path searches, `DynamicMap`, `MotionController`, the display
mutex) are not represented.  Member functions that the header only declares
have no body to embed; where a property needs one, it is modelled from the
specification and marked as such.
-/

namespace srrg_planner

/-! ## Data model -/

/-- The display selector `enum WhatToShow {Map, Distance, Cost}`. -/
inductive WhatToShow where
  | Map
  | Distance
  | Cost
  deriving DecidableEq, Repr

/-- The planner status
`enum State {WaitingForMap, WaitingForGoal, GoalAccepted, PathFound, PathNotFound, GoalReached}`. -/
inductive State where
  | WaitingForMap
  | WaitingForGoal
  | GoalAccepted
  | PathFound
  | PathNotFound
  | GoalReached
  deriving DecidableEq, Repr

/-- An `Eigen::Vector2f`: two `float` coordinates. -/
structure Vector2f where
  x : ℚ
  y : ℚ
  deriving DecidableEq, Repr

/-- An `Eigen::Vector2i`: two `int` coordinates. -/
structure Vector2i where
  x : ℤ
  y : ℤ
  deriving DecidableEq, Repr

/-- An `Eigen::Vector3f`: three `float` coordinates. -/
structure Vector3f where
  x : ℚ
  y : ℚ
  z : ℚ
  deriving DecidableEq, Repr

/-- An `Eigen::Isometry2f`, stored as its 2x2 linear block and its translation column. -/
structure Isometry2f where
  m00 : ℚ
  m01 : ℚ
  m10 : ℚ
  m11 : ℚ
  tx : ℚ
  ty : ℚ
  deriving DecidableEq, Repr

/-- The product `T * p` of a transform and a point: linear block times `p`, plus translation. -/
def Isometry2f.apply (T : Isometry2f) (p : Vector2f) : Vector2f :=
  ⟨T.m00 * p.x + T.m01 * p.y + T.tx, T.m10 * p.x + T.m11 * p.y + T.ty⟩

/-- The value of `Eigen::Isometry2f::Identity()`. -/
def Isometry2f.identity : Isometry2f := ⟨1, 0, 0, 1, 0, 0⟩

/-- The data members of `class Planner`, in declaration order (see the header comment
for the members that are left out). -/
structure Planner where
  _max_distance_map_index : ℤ
  _path : List Vector2i
  _obstacle_path : List Vector2i
  _nominal_path : List Vector2i
  _max_cost : ℚ
  _min_cost : ℚ
  _robot_radius : ℚ
  _safety_region : ℚ
  _map_resolution : ℚ
  _map_inverse_resolution : ℚ
  _occ_threshold : ℚ
  _free_threshold : ℚ
  _map_origin : Vector3f
  _image_map_origin : Vector3f
  _map_origin_transform_inverse : Isometry2f
  _image_map_origin_transform_inverse : Isometry2f
  _use_gui : Bool
  _what_to_show : WhatToShow
  _have_goal : Bool
  _have_goal_with_angle : Bool
  _goal : Vector3f
  _goal_image : Vector3f
  _goal_pixel : Vector2i
  _robot_pose : Vector3f
  _robot_pose_image : Vector3f
  _robot_pose_pixel : Vector2i
  _laser_points : List Vector2f
  _velocities : Vector2f
  _state : State
  _restart : Bool
  deriving DecidableEq, Repr

/-! ## Binary32 arithmetic -/

/-- Rounding of a rational to the nearest integer, ties to the even one. -/
def roundHalfEven (x : ℚ) : ℤ :=
  if 2 * Int.fract x < 1 then ⌊x⌋
  else if 1 < 2 * Int.fract x then ⌊x⌋ + 1
  else if ⌊x⌋ % 2 = 0 then ⌊x⌋ else ⌊x⌋ + 1

/-- The binary32 exponent of `q`: the `e` with `2^e ≤ |q| < 2^(e+1)`, and `-126` for the
non-zero values below the normal range (at `q = 0` it is `0`; zero is rounded to zero
whatever the exponent). -/
def binade (q : ℚ) : ℤ := max (Int.log 2 |q|) (-126)

/-- The unit in the last place of binary32 at `q`: 24 significant bits. -/
def ulp32 (q : ℚ) : ℚ := (2 : ℚ) ^ (binade q - 23)

/-- The binary32 value nearest to `q` (ties to even), before the overflow test. -/
def round32 (q : ℚ) : ℚ := (roundHalfEven (q / ulp32 q) : ℚ) * ulp32 q

/-- A binary32 value: a finite number, an infinity with its sign, or a NaN. -/
inductive F32 where
  | fin (q : ℚ)
  | inf (negative : Bool)
  | nan
  deriving DecidableEq, Repr

/-- The binary32 result of an operation whose exact value is `q`: the nearest binary32
value, or an infinity when that value is beyond the largest finite one. -/
def F32.ofRat (q : ℚ) : F32 :=
  if (2 : ℚ) ^ 128 ≤ |round32 q| then F32.inf (decide (q < 0)) else F32.fin (round32 q)

/-- The binary32 product `a * b`. -/
def F32.mul : F32 → F32 → F32
  | F32.fin a, F32.fin b => F32.ofRat (a * b)
  | F32.fin a, F32.inf s => if a = 0 then F32.nan else F32.inf (decide (a < 0) != s)
  | F32.inf s, F32.fin b => if b = 0 then F32.nan else F32.inf (s != decide (b < 0))
  | F32.inf s, F32.inf t => F32.inf (s != t)
  | F32.nan, _ => F32.nan
  | _, F32.nan => F32.nan

/-- The number held by a finite binary32 value; nothing for an infinity or a NaN. -/
def F32.value : F32 → Option ℚ
  | F32.fin q => some q
  | _ => none

/-- The C++ conversion `int → float`: the nearest binary32 value. -/
def intToFloat (z : ℤ) : F32 := F32.ofRat (z : ℚ)

/-- Truncation toward zero: the quotient numerator / denominator rounded toward zero. -/
def truncToZero (q : ℚ) : ℤ := Int.tdiv q.num q.den

/-- The implicit C++ conversion `float → int`: the fractional part is discarded; the
behaviour is undefined (`none`) when the truncated value is not a 32-bit `int` or the
operand is an infinity or a NaN. -/
def floatToInt : F32 → Option ℤ
  | F32.fin q =>
    if -2 ^ 31 ≤ truncToZero q ∧ truncToZero q < 2 ^ 31 then some (truncToZero q) else none
  | _ => none

/-! ## Inline members of `Planner` -/

/-- The setter `inline void setMaxCost(float max_cost) {_max_cost = max_cost;}`. -/
def setMaxCost (P : Planner) (max_cost : ℚ) : Planner := { P with _max_cost := max_cost }

/-- The reader `inline float maxCost() const {return _max_cost;}`. -/
def maxCost (P : Planner) : ℚ := P._max_cost

/-- The setter `inline void setMinCost(float min_cost) {_min_cost = min_cost;}`. -/
def setMinCost (P : Planner) (min_cost : ℚ) : Planner := { P with _min_cost := min_cost }

/-- The reader `inline float minCost() const {return _min_cost;}`. -/
def minCost (P : Planner) : ℚ := P._min_cost

/-- The setter `inline void setRobotRadius(float robot_radius) {_robot_radius = robot_radius;}`. -/
def setRobotRadius (P : Planner) (robot_radius : ℚ) : Planner :=
  { P with _robot_radius := robot_radius }

/-- The reader `inline float robotRadius() const {return _robot_radius;}`. -/
def robotRadius (P : Planner) : ℚ := P._robot_radius

/-- The setter
`inline void setSafetyRegion(float safety_region) {_safety_region = safety_region;}`. -/
def setSafetyRegion (P : Planner) (safety_region : ℚ) : Planner :=
  { P with _safety_region := safety_region }

/-- The reader `inline float safetyRegion() const {return _safety_region;}`. -/
def safetyRegion (P : Planner) : ℚ := P._safety_region

/-- The setter `inline void useGUI(bool use_gui){_use_gui = use_gui;}`. -/
def useGUI (P : Planner) (use_gui : Bool) : Planner := { P with _use_gui := use_gui }

/-- The reader `inline Eigen::Vector2f velocities() const {return _velocities;}`. -/
def velocities (P : Planner) : Vector2f := P._velocities

/-- The member
`world2grid(p) = Eigen::Vector2i(p.x()*_map_inverse_resolution, p.y()*_map_inverse_resolution)`:
two binary32 products, each converted to `int`.  The result is `none` when a conversion is
undefined. -/
def world2grid (P : Planner) (p : Vector2f) : Option Vector2i :=
  match floatToInt (F32.mul (F32.fin p.x) (F32.fin P._map_inverse_resolution)),
      floatToInt (F32.mul (F32.fin p.y) (F32.fin P._map_inverse_resolution)) with
  | some cx, some cy => some ⟨cx, cy⟩
  | _, _ => none

/-- The member
`grid2world(p) = Eigen::Vector2f(p.x()*_map_resolution, p.y()*_map_resolution)`:
each `int` coordinate is converted to `float` and multiplied in binary32.  The result is
`none` when a product is not finite (a vector holds finite coordinates only). -/
def grid2world (P : Planner) (p : Vector2i) : Option Vector2f :=
  match (F32.mul (intToFloat p.x) (F32.fin P._map_resolution)).value,
      (F32.mul (intToFloat p.y) (F32.fin P._map_resolution)).value with
  | some wx, some wy => some ⟨wx, wy⟩
  | _, _ => none

/-! ## Properties stated by the specification -/

/-- The parameter invariant of the specification:
`0 ≤ min_cost ≤ max_cost < +∞`, `robot_radius ≥ 0`, `safety_region ≥ 0`.
Costs are compared with `+∞` in `WithTop ℚ`; a rational is always below `⊤`. -/
def paramInvariant (P : Planner) : Prop :=
  0 ≤ P._min_cost ∧ P._min_cost ≤ P._max_cost ∧ ((P._max_cost : ℚ) : WithTop ℚ) < ⊤ ∧
    0 ≤ P._robot_radius ∧ 0 ≤ P._safety_region

instance paramInvariant.decidable (P : Planner) : Decidable (paramInvariant P) := by
  unfold paramInvariant
  infer_instance

/-- Modelled from the spec: `void cancelGoal();` is only declared in the header, its body lives
outside the header.  The specification says: "any state → `WaitingForGoal`;
zero velocity emitted; path cleared". -/
def cancelGoal (P : Planner) : Planner :=
  { P with _path := [], _velocities := ⟨0, 0⟩, _state := State.WaitingForGoal }

/-- Modelled from the spec: the inner radius `R_robot` of the cost field is the planner's
`robot_radius` parameter (the cost-field encoder lives outside the header). -/
def R_robot (P : Planner) : ℚ := P._robot_radius

/-- Modelled from the spec: the outer radius `R_safe` of the cost field is
`robot_radius + safety_region` (the cost-field encoder lives outside the header). -/
def R_safe (P : Planner) : ℚ := P._robot_radius + P._safety_region

/-- The bounding function `clamp(x, lo, hi)`. -/
def clamp (x lo hi : ℚ) : ℚ := max lo (min x hi)

/-- Modelled from the spec: the cost curve of the cost-field encoder (which lives outside the
header), `cost(d) = min_cost + (max_cost − min_cost) · clamp((R_safe − d)/(R_safe − R_robot), 0, 1)`. -/
def costCurve (P : Planner) (d : ℚ) : ℚ :=
  P._min_cost + (P._max_cost - P._min_cost) * clamp ((R_safe P - d) / (R_safe P - R_robot P)) 0 1

/-- Modelled from the spec: the per-cell value of the cost field (the encoder lives outside
the header): `+∞` if the distance is at most `R_robot`, the cost curve up to `R_safe`,
and `0` beyond `R_safe`. -/
def cost (P : Planner) (d : ℚ) : WithTop ℚ :=
  if d ≤ R_robot P then ⊤
  else if d ≤ R_safe P then ((costCurve P d : ℚ) : WithTop ℚ)
  else 0

/-! ## Concrete planners used as inputs -/

/-- A planner value with the given resolution fields, origin transform, velocities and state.
The path-map parameters are `min_cost = 0`, `max_cost = 100`, `robot_radius = 1/4`,
`safety_region = 1/2`; every other member is empty or zero. -/
def samplePlanner (res inv : ℚ) (T : Isometry2f) (v : Vector2f) (s : State) : Planner :=
  { _max_distance_map_index := 0
    _path := []
    _obstacle_path := []
    _nominal_path := []
    _max_cost := 100
    _min_cost := 0
    _robot_radius := 1 / 4
    _safety_region := 1 / 2
    _map_resolution := res
    _map_inverse_resolution := inv
    _occ_threshold := 0
    _free_threshold := 0
    _map_origin := ⟨0, 0, 0⟩
    _image_map_origin := ⟨0, 0, 0⟩
    _map_origin_transform_inverse := T
    _image_map_origin_transform_inverse := Isometry2f.identity
    _use_gui := false
    _what_to_show := WhatToShow.Map
    _have_goal := false
    _have_goal_with_angle := false
    _goal := ⟨0, 0, 0⟩
    _goal_image := ⟨0, 0, 0⟩
    _goal_pixel := ⟨0, 0⟩
    _robot_pose := ⟨0, 0, 0⟩
    _robot_pose_image := ⟨0, 0, 0⟩
    _robot_pose_pixel := ⟨0, 0⟩
    _laser_points := []
    _velocities := v
    _state := s
    _restart := true }

/-- A planner at rest on a map of resolution `1/4` (inverse resolution `4`), identity origin. -/
def planner0 : Planner :=
  samplePlanner (1 / 4) 4 Isometry2f.identity ⟨0, 0⟩ State.WaitingForGoal

/-! ## Binary32 rounding -/

theorem floor_le_roundHalfEven (x : ℚ) : ⌊x⌋ ≤ roundHalfEven x := by
  unfold roundHalfEven
  split_ifs <;> omega

theorem roundHalfEven_le_floor_add_one (x : ℚ) : roundHalfEven x ≤ ⌊x⌋ + 1 := by
  unfold roundHalfEven
  split_ifs <;> omega

theorem roundHalfEven_intCast (n : ℤ) : roundHalfEven (n : ℚ) = n := by
  simp [roundHalfEven]

theorem roundHalfEven_mono {a b : ℚ} (h : a ≤ b) : roundHalfEven a ≤ roundHalfEven b := by
  rcases lt_or_eq_of_le (Int.floor_mono h) with hlt | heq
  · calc roundHalfEven a ≤ ⌊a⌋ + 1 := roundHalfEven_le_floor_add_one a
      _ ≤ ⌊b⌋ := hlt
      _ ≤ roundHalfEven b := floor_le_roundHalfEven b
  · have hf : Int.fract a ≤ Int.fract b := by
      unfold Int.fract
      rw [heq]
      linarith
    unfold roundHalfEven
    rw [heq]
    split_ifs <;> first | omega | linarith

theorem roundHalfEven_sub_le (x : ℚ) : |(roundHalfEven x : ℚ) - x| ≤ 1 / 2 := by
  have h1 : (⌊x⌋ : ℚ) + Int.fract x = x := Int.floor_add_fract x
  have h2 := Int.fract_nonneg x
  have h3 := Int.fract_lt_one x
  rw [abs_le]
  unfold roundHalfEven
  split_ifs <;> push_cast <;> constructor <;> linarith



theorem ulp32_pos (q : ℚ) : 0 < ulp32 q := by
  unfold ulp32
  positivity

theorem binade_ge (q : ℚ) : -126 ≤ binade q := le_max_right _ _

theorem log_le_binade (q : ℚ) : Int.log 2 |q| ≤ binade q := le_max_left _ _

/-- A power of two with non-negative exponent is an integer. -/
theorem two_zpow_eq_intCast {k : ℤ} (hk : 0 ≤ k) : (2 : ℚ) ^ k = (((2 : ℤ) ^ k.toNat : ℤ) : ℚ) := by
  obtain ⟨n, rfl⟩ := Int.eq_ofNat_of_zero_le hk
  simp

/-- Every `m * 2 ^ k` with `k` at least the exponent of the unit in the last place of `q`
is a point of the rounding grid of `q`. -/
theorem grid_point (q : ℚ) {k : ℤ} (hk : binade q - 23 ≤ k) (m : ℤ) :
    ∃ n : ℤ, (m : ℚ) * (2 : ℚ) ^ k = (n : ℚ) * ulp32 q := by
  refine ⟨m * (2 : ℤ) ^ (k - (binade q - 23)).toNat, ?_⟩
  have h0 : 0 ≤ k - (binade q - 23) := by omega
  have e : (2 : ℚ) ^ k = (2 : ℚ) ^ (k - (binade q - 23)) * (2 : ℚ) ^ (binade q - 23) := by
    rw [← zpow_add₀ (by norm_num : (2 : ℚ) ≠ 0)]
    congr 1
    ring
  rw [e, two_zpow_eq_intCast h0]
  unfold ulp32
  push_cast
  ring

theorem round32_le_of_le_grid (q : ℚ) {k : ℤ} (hk : binade q - 23 ≤ k) (m : ℤ)
    (h : q ≤ (m : ℚ) * (2 : ℚ) ^ k) : round32 q ≤ (m : ℚ) * (2 : ℚ) ^ k := by
  obtain ⟨n, hn⟩ := grid_point q hk m
  rw [hn] at h ⊢
  unfold round32
  have hu := ulp32_pos q
  have h1 : q / ulp32 q ≤ (n : ℚ) := (div_le_iff₀ hu).mpr h
  have h2 := roundHalfEven_mono h1
  rw [roundHalfEven_intCast] at h2
  exact mul_le_mul_of_nonneg_right (by exact_mod_cast h2) hu.le

theorem le_round32_of_grid_le (q : ℚ) {k : ℤ} (hk : binade q - 23 ≤ k) (m : ℤ)
    (h : (m : ℚ) * (2 : ℚ) ^ k ≤ q) : (m : ℚ) * (2 : ℚ) ^ k ≤ round32 q := by
  obtain ⟨n, hn⟩ := grid_point q hk m
  rw [hn] at h ⊢
  unfold round32
  have hu := ulp32_pos q
  have h1 : (n : ℚ) ≤ q / ulp32 q := (le_div_iff₀ hu).mpr h
  have h2 := roundHalfEven_mono h1
  rw [roundHalfEven_intCast] at h2
  exact mul_le_mul_of_nonneg_right (by exact_mod_cast h2) hu.le

/-- A grid point of `q` equal to `q` is left unchanged: representable values are exact. -/
theorem round32_eq_self (q : ℚ) {k : ℤ} (hk : binade q - 23 ≤ k) (m : ℤ)
    (h : q = (m : ℚ) * (2 : ℚ) ^ k) : round32 q = q := by
  apply le_antisymm
  · calc round32 q ≤ (m : ℚ) * (2 : ℚ) ^ k := round32_le_of_le_grid q hk m h.le
      _ = q := h.symm
  · calc q = (m : ℚ) * (2 : ℚ) ^ k := h
      _ ≤ round32 q := le_round32_of_grid_le q hk m h.ge

theorem round32_zero : round32 0 = 0 := by
  simp [round32, roundHalfEven]

theorem round32_nonneg {q : ℚ} (h : 0 ≤ q) : 0 ≤ round32 q := by
  have := le_round32_of_grid_le q (k := binade q) (by omega) 0 (by simpa using h)
  simpa using this

theorem round32_nonpos {q : ℚ} (h : q ≤ 0) : round32 q ≤ 0 := by
  have := round32_le_of_le_grid q (k := binade q) (by omega) 0 (by simpa using h)
  simpa using this

theorem zpow_binade_le {q : ℚ} (hq : q ≠ 0) (h : -126 < binade q) : (2 : ℚ) ^ binade q ≤ |q| := by
  have hb : binade q = Int.log 2 |q| := by
    unfold binade at h ⊢
    rcases le_total (Int.log 2 |q|) (-126) with h1 | h1
    · rw [max_eq_right h1] at h
      omega
    · exact max_eq_left h1
  rw [hb]
  have := Int.zpow_log_le_self (R := ℚ) (b := 2) (by norm_num) (abs_pos.mpr hq)
  simpa using this

theorem lt_zpow_binade_succ (q : ℚ) : |q| < (2 : ℚ) ^ (binade q + 1) := by
  have h1 := Int.lt_zpow_succ_log_self (R := ℚ) (b := 2) (by norm_num) |q|
  have h2 : ((2 : ℕ) : ℚ) ^ (Int.log 2 |q| + 1) ≤ (2 : ℚ) ^ (binade q + 1) := by
    have := log_le_binade q
    simpa using zpow_le_zpow_right₀ (by norm_num : (1 : ℚ) ≤ 2) (by omega : Int.log 2 |q| + 1 ≤ binade q + 1)
  exact lt_of_lt_of_le h1 h2

theorem binade_mono {a b : ℚ} (ha : a ≠ 0) (h : |a| ≤ |b|) : binade a ≤ binade b := by
  unfold binade
  exact max_le_max (Int.log_mono_right (abs_pos.mpr ha) h) le_rfl

theorem round32_mono {a b : ℚ} (h : a ≤ b) : round32 a ≤ round32 b := by
  rcases le_total a 0 with ha | ha
  · rcases le_total 0 b with hb | hb
    · exact (round32_nonpos ha).trans (round32_nonneg hb)
    · -- both non-positive
      rcases eq_or_lt_of_le hb with hb0 | hblt
      · rw [hb0, round32_zero]
        exact round32_nonpos ha
      have hbne : b ≠ 0 := ne_of_lt hblt
      have habs : |b| ≤ |a| := by
        rw [abs_of_nonpos ha, abs_of_nonpos hb]
        linarith
      rcases eq_or_lt_of_le (binade_mono hbne habs) with he | hlt
      · unfold round32 ulp32
        rw [he]
        have hu : (0 : ℚ) < (2 : ℚ) ^ (binade a - 23) := by positivity
        have h1 : a / (2 : ℚ) ^ (binade a - 23) ≤ b / (2 : ℚ) ^ (binade a - 23) :=
          div_le_div_of_nonneg_right h hu.le
        exact mul_le_mul_of_nonneg_right (by exact_mod_cast roundHalfEven_mono h1) hu.le
      · have hane : a ≠ 0 := by
          rintro rfl
          simp at habs
          exact hbne habs
        have h1 : (2 : ℚ) ^ binade a ≤ |a| := zpow_binade_le hane (by have := binade_ge b; omega)
        have h2 : |b| < (2 : ℚ) ^ binade a :=
          lt_of_lt_of_le (lt_zpow_binade_succ b)
            (zpow_le_zpow_right₀ (by norm_num) (by omega))
        rw [abs_of_nonpos ha] at h1
        rw [abs_of_nonpos hb] at h2
        have hA := round32_le_of_le_grid a (k := binade a) (by omega) (-1)
          (by push_cast; linarith)
        have hB := le_round32_of_grid_le b (k := binade a) (by omega) (-1)
          (by push_cast; linarith)
        exact hA.trans hB
  · -- both non-negative
    have hb : 0 ≤ b := ha.trans h
    rcases eq_or_lt_of_le ha with ha0 | halt
    · rw [← ha0, round32_zero]
      exact round32_nonneg hb
    have hane : a ≠ 0 := ne_of_gt halt
    have habs : |a| ≤ |b| := by
      rw [abs_of_nonneg ha, abs_of_nonneg hb]
      exact h
    rcases eq_or_lt_of_le (binade_mono hane habs) with he | hlt
    · unfold round32 ulp32
      rw [he]
      have hu : (0 : ℚ) < (2 : ℚ) ^ (binade b - 23) := by positivity
      have h1 : a / (2 : ℚ) ^ (binade b - 23) ≤ b / (2 : ℚ) ^ (binade b - 23) :=
        div_le_div_of_nonneg_right h hu.le
      exact mul_le_mul_of_nonneg_right (by exact_mod_cast roundHalfEven_mono h1) hu.le
    · have hbne : b ≠ 0 := ne_of_gt (lt_of_lt_of_le halt h)
      have h1 : (2 : ℚ) ^ binade b ≤ |b| := zpow_binade_le hbne (by have := binade_ge a; omega)
      have h2 : |a| < (2 : ℚ) ^ binade b :=
        lt_of_lt_of_le (lt_zpow_binade_succ a)
          (zpow_le_zpow_right₀ (by norm_num) (by omega))
      rw [abs_of_nonneg hb] at h1
      rw [abs_of_nonneg ha] at h2
      have hA := round32_le_of_le_grid a (k := binade b) (by omega) 1
        (by push_cast; linarith)
      have hB := le_round32_of_grid_le b (k := binade b) (by omega) 1
        (by push_cast; linarith)
      exact hA.trans hB



theorem binade_eq_of_bounds {q : ℚ} {e : ℤ} (he : -126 ≤ e) (h1 : (2 : ℚ) ^ e ≤ |q|)
    (h2 : |q| < (2 : ℚ) ^ (e + 1)) : binade q = e := by
  have hpos : 0 < |q| := lt_of_lt_of_le (by positivity) h1
  have a1 : e ≤ Int.log 2 |q| :=
    (Int.zpow_le_iff_le_log (R := ℚ) (b := 2) (by norm_num) hpos).mp (by simpa using h1)
  have a2 : Int.log 2 |q| < e + 1 :=
    (Int.lt_zpow_iff_log_lt (R := ℚ) (b := 2) (by norm_num) hpos).mp (by simpa using h2)
  unfold binade
  rw [max_eq_left (by omega)]
  omega

theorem binade_eq_of_small {q : ℚ} (hq : q ≠ 0) (h : |q| < (2 : ℚ) ^ (-126 : ℤ)) :
    binade q = -126 := by
  have hpos : 0 < |q| := abs_pos.mpr hq
  have a2 : Int.log 2 |q| < -126 :=
    (Int.lt_zpow_iff_log_lt (R := ℚ) (b := 2) (by norm_num) hpos).mp (by simpa using h)
  unfold binade
  exact max_eq_right a2.le

theorem round32_sub_le (q : ℚ) : |round32 q - q| ≤ ulp32 q / 2 := by
  have hu := ulp32_pos q
  have h := roundHalfEven_sub_le (q / ulp32 q)
  have e : round32 q - q = ((roundHalfEven (q / ulp32 q) : ℚ) - q / ulp32 q) * ulp32 q := by
    unfold round32
    field_simp
  rw [e, abs_mul, abs_of_pos hu]
  calc |(roundHalfEven (q / ulp32 q) : ℚ) - q / ulp32 q| * ulp32 q
      ≤ 1 / 2 * ulp32 q := mul_le_mul_of_nonneg_right h hu.le
    _ = ulp32 q / 2 := by ring

/-- Relative accuracy of binary32 rounding in the normal range. -/
theorem round32_rel {q : ℚ} (h : (2 : ℚ) ^ (-126 : ℤ) ≤ |q|) :
    |round32 q - q| ≤ |q| / 2 ^ 24 := by
  have hq : q ≠ 0 := by
    rintro rfl
    norm_num at h
  have hb : (2 : ℚ) ^ binade q ≤ |q| := by
    rcases eq_or_lt_of_le (binade_ge q) with he | hlt
    · rw [← he]
      exact h
    · exact zpow_binade_le hq hlt
  have e : ulp32 q / 2 = (2 : ℚ) ^ binade q / 2 ^ 24 := by
    unfold ulp32
    rw [zpow_sub₀ (by norm_num : (2 : ℚ) ≠ 0)]
    norm_num
    ring
  calc |round32 q - q| ≤ ulp32 q / 2 := round32_sub_le q
    _ = (2 : ℚ) ^ binade q / 2 ^ 24 := e
    _ ≤ |q| / 2 ^ 24 := div_le_div_of_nonneg_right hb (by positivity)

/-- Absolute accuracy of binary32 rounding below the normal range. -/
theorem round32_abs {q : ℚ} (h : |q| < (2 : ℚ) ^ (-126 : ℤ)) :
    |round32 q - q| ≤ (2 : ℚ) ^ (-150 : ℤ) := by
  rcases eq_or_ne q 0 with rfl | hq
  · rw [round32_zero]
    norm_num
  · have hb := binade_eq_of_small hq h
    have := round32_sub_le q
    unfold ulp32 at this
    rw [hb] at this
    norm_num at this ⊢
    linarith

theorem roundHalfEven_eq_of_near {x : ℚ} {n : ℤ} (h : |x - n| < 1 / 2) :
    roundHalfEven x = n := by
  rw [abs_lt] at h
  rcases le_or_lt (n : ℚ) x with hx | hx
  · have hf : ⌊x⌋ = n := Int.floor_eq_iff.mpr ⟨hx, by linarith⟩
    have hfr : Int.fract x = x - n := by
      unfold Int.fract
      rw [hf]
    unfold roundHalfEven
    rw [hfr, hf, if_pos (by linarith)]
  · have hf : ⌊x⌋ = n - 1 := Int.floor_eq_iff.mpr ⟨by push_cast; linarith, by push_cast; linarith⟩
    have hfr : Int.fract x = x - (n - 1) := by
      unfold Int.fract
      rw [hf]
      push_cast
      ring
    unfold roundHalfEven
    rw [hfr, hf, if_neg (by linarith), if_pos (by linarith)]
    ring

theorem roundHalfEven_tie_even {x : ℚ} {n : ℤ} (h : x = n + 1 / 2) (hn : n % 2 = 0) :
    roundHalfEven x = n := by
  have hf : ⌊x⌋ = n := Int.floor_eq_iff.mpr ⟨by linarith, by linarith⟩
  have hfr : Int.fract x = 1 / 2 := by
    unfold Int.fract
    rw [hf, h]
    ring
  unfold roundHalfEven
  rw [hfr, hf, if_neg (by norm_num), if_neg (by norm_num), if_pos hn]

/-- Evaluation of `round32` at a value that is not half way between two grid points. -/
theorem round32_eq_of_near {q : ℚ} {e : ℤ} (n : ℤ) (he : -126 ≤ e)
    (h1 : (2 : ℚ) ^ e ≤ |q|) (h2 : |q| < (2 : ℚ) ^ (e + 1))
    (hn : |q / (2 : ℚ) ^ (e - 23) - n| < 1 / 2) :
    round32 q = (n : ℚ) * (2 : ℚ) ^ (e - 23) := by
  unfold round32 ulp32
  rw [binade_eq_of_bounds he h1 h2, roundHalfEven_eq_of_near hn]

/-- Evaluation of `round32` at a value half way between two grid points: the even one. -/
theorem round32_eq_of_tie {q : ℚ} {e : ℤ} (n : ℤ) (he : -126 ≤ e)
    (h1 : (2 : ℚ) ^ e ≤ |q|) (h2 : |q| < (2 : ℚ) ^ (e + 1))
    (hn : q / (2 : ℚ) ^ (e - 23) = n + 1 / 2) (hev : n % 2 = 0) :
    round32 q = (n : ℚ) * (2 : ℚ) ^ (e - 23) := by
  unfold round32 ulp32
  rw [binade_eq_of_bounds he h1 h2, roundHalfEven_tie_even hn hev]

/-- Evaluation of `round32` at a representable value. -/
theorem round32_eq_self_of_bounds {q : ℚ} {e : ℤ} (n : ℤ) (he : -126 ≤ e)
    (h1 : (2 : ℚ) ^ e ≤ |q|) (h2 : |q| < (2 : ℚ) ^ (e + 1))
    (hn : q = (n : ℚ) * (2 : ℚ) ^ (e - 23)) : round32 q = q :=
  round32_eq_self q (by rw [binade_eq_of_bounds he h1 h2]) n hn

/-! ## Truncation toward zero -/

theorem truncToZero_of_nonneg {q : ℚ} (h : 0 ≤ q) : truncToZero q = ⌊q⌋ := by
  unfold truncToZero
  rw [Int.tdiv_eq_ediv (Rat.num_nonneg.mpr h) (Int.ofNat_nonneg _), Rat.floor_def]

theorem truncToZero_neg (q : ℚ) : truncToZero (-q) = -truncToZero q := by
  unfold truncToZero
  rw [Rat.neg_num, Rat.neg_den, Int.neg_tdiv]

theorem truncToZero_of_nonpos {q : ℚ} (h : q ≤ 0) : truncToZero q = ⌈q⌉ := by
  have h1 : truncToZero (-q) = ⌊-q⌋ := truncToZero_of_nonneg (neg_nonneg.mpr h)
  rw [truncToZero_neg, Int.floor_neg] at h1
  exact neg_injective h1

theorem truncToZero_eq (q : ℚ) : truncToZero q = if 0 ≤ q then ⌊q⌋ else ⌈q⌉ := by
  split_ifs with h
  · exact truncToZero_of_nonneg h
  · exact truncToZero_of_nonpos (le_of_lt (not_le.mp h))

theorem truncToZero_intCast (z : ℤ) : truncToZero (z : ℚ) = z := by
  rw [truncToZero_eq]
  split_ifs <;> simp

theorem truncToZero_mono {a b : ℚ} (h : a ≤ b) : truncToZero a ≤ truncToZero b := by
  rcases le_total 0 a with ha | ha
  · rw [truncToZero_of_nonneg ha, truncToZero_of_nonneg (ha.trans h)]
    exact Int.floor_mono h
  · rcases le_total b 0 with hb | hb
    · rw [truncToZero_of_nonpos ha, truncToZero_of_nonpos hb]
      exact Int.ceil_mono h
    · rw [truncToZero_of_nonpos ha, truncToZero_of_nonneg hb]
      have h1 : ⌈a⌉ ≤ 0 := by
        rw [Int.ceil_le]
        simpa using ha
      exact h1.trans (Int.floor_nonneg.mpr hb)

/-- Truncation moves a value toward zero by less than one. -/
theorem truncToZero_toward_zero (q : ℚ) :
    ((0 ≤ (truncToZero q : ℚ) ∧ (truncToZero q : ℚ) ≤ q) ∨
        (q ≤ (truncToZero q : ℚ) ∧ (truncToZero q : ℚ) ≤ 0)) ∧
      |q - (truncToZero q : ℚ)| < 1 := by
  rcases le_total 0 q with hq | hq
  · rw [truncToZero_of_nonneg hq]
    have h1 : (⌊q⌋ : ℚ) ≤ q := Int.floor_le _
    have h2 : q < (⌊q⌋ : ℚ) + 1 := Int.lt_floor_add_one _
    have h3 : (0 : ℚ) ≤ (⌊q⌋ : ℚ) := by exact_mod_cast Int.floor_nonneg.mpr hq
    refine ⟨Or.inl ⟨h3, h1⟩, ?_⟩
    rw [abs_lt]
    constructor <;> linarith
  · rw [truncToZero_of_nonpos hq]
    have h1 : q ≤ (⌈q⌉ : ℚ) := Int.le_ceil _
    have h2 : (⌈q⌉ : ℚ) < q + 1 := Int.ceil_lt_add_one _
    have h3 : (⌈q⌉ : ℚ) ≤ 0 := by
      have : ⌈q⌉ ≤ 0 := by
        rw [Int.ceil_le]
        simpa using hq
      exact_mod_cast this
    refine ⟨Or.inr ⟨h1, h3⟩, ?_⟩
    rw [abs_lt]
    constructor <;> linarith

theorem abs_truncToZero_le (q : ℚ) : |(truncToZero q : ℚ)| ≤ |q| := by
  rcases (truncToZero_toward_zero q).1 with ⟨h1, h2⟩ | ⟨h1, h2⟩
  · rw [abs_of_nonneg h1, abs_of_nonneg (h1.trans h2)]
    exact h2
  · rw [abs_of_nonpos h2, abs_of_nonpos (h1.trans h2)]
    linarith

/-- A value less than one away from an integer `c` truncates to `c` or to its neighbour one
step toward zero. -/
theorem truncToZero_of_near {q : ℚ} {c : ℤ} (h : |q - c| < 1) :
    truncToZero q = c ∨ truncToZero q = c - Int.sign c := by
  rw [abs_lt] at h
  rcases lt_trichotomy c 0 with hc | hc | hc
  · have hc1 : (c : ℚ) ≤ -1 := by exact_mod_cast (by omega : c ≤ -1)
    have hq : q ≤ 0 := by linarith
    rw [truncToZero_of_nonpos hq, Int.sign_eq_neg_one_of_neg hc]
    have h1 : c ≤ ⌈q⌉ := by
      rw [Int.le_ceil_iff]
      linarith
    have h2 : ⌈q⌉ ≤ c + 1 := by
      rw [Int.ceil_le]
      push_cast
      linarith
    omega
  · subst hc
    left
    have h1 : -1 < q := by simpa using h.1
    have h2 : q < 1 := by simpa using h.2
    rcases le_total 0 q with hq | hq
    · rw [truncToZero_of_nonneg hq, Int.floor_eq_iff]
      exact ⟨by simpa using hq, by simpa using h2⟩
    · rw [truncToZero_of_nonpos hq, Int.ceil_eq_iff]
      exact ⟨by simpa using h1, by simpa using hq⟩
  · have hc1 : (1 : ℚ) ≤ c := by exact_mod_cast (by omega : 1 ≤ c)
    have hq : 0 ≤ q := by linarith
    rw [truncToZero_of_nonneg hq, Int.sign_eq_one_of_pos hc]
    have h1 : c - 1 ≤ ⌊q⌋ := by
      rw [Int.le_floor]
      push_cast
      linarith
    have h2 : ⌊q⌋ ≤ c := by
      have : ⌊q⌋ < c + 1 := by
        rw [Int.floor_lt]
        push_cast
        linarith
      omega
    omega

/-! ## Conversions between `int` and `float` -/

theorem F32.ofRat_of_lt {q : ℚ} (h : |round32 q| < (2 : ℚ) ^ 128) :
    F32.ofRat q = F32.fin (round32 q) := by
  unfold F32.ofRat
  rw [if_neg (not_le.mpr h)]

theorem F32.mul_fin_of_lt {a b : ℚ} (h : |round32 (a * b)| < (2 : ℚ) ^ 128) :
    F32.mul (F32.fin a) (F32.fin b) = F32.fin (round32 (a * b)) := by
  simp only [F32.mul]
  exact F32.ofRat_of_lt h

/-- The conversion of a binary32 product of two finite values to `int` is defined exactly when
the truncated rounded product is a 32-bit `int`, and is then that integer. -/
theorem floatToInt_mul_eq_some_iff (a b : ℚ) (t : ℤ) :
    floatToInt (F32.mul (F32.fin a) (F32.fin b)) = some t ↔
      t = truncToZero (round32 (a * b)) ∧ -2 ^ 31 ≤ t ∧ t < 2 ^ 31 := by
  simp only [F32.mul, F32.ofRat]
  split_ifs with hov
  · simp only [floatToInt]
    constructor
    · intro h
      exact absurd h (by simp)
    · rintro ⟨rfl, h1, h2⟩
      exfalso
      have hnear := (truncToZero_toward_zero (round32 (a * b))).2
      have h1q : (-2 ^ 31 : ℚ) ≤ (truncToZero (round32 (a * b)) : ℚ) := by exact_mod_cast h1
      have h2q : (truncToZero (round32 (a * b)) : ℚ) < 2 ^ 31 := by exact_mod_cast h2
      rw [abs_lt] at hnear
      have : |round32 (a * b)| < 2 ^ 128 := by
        rw [abs_lt]
        constructor <;> norm_num at * <;> linarith
      exact absurd hov (not_le.mpr this)
  · simp only [floatToInt]
    split_ifs with hr
    · constructor
      · intro h
        have e := Option.some.inj h
        subst e
        exact ⟨rfl, hr.1, hr.2⟩
      · rintro ⟨rfl, -, -⟩
        rfl
    · constructor
      · intro h
        exact absurd h (by simp)
      · rintro ⟨rfl, h1, h2⟩
        exact absurd ⟨h1, h2⟩ hr

theorem binade_le_of_abs_lt {q : ℚ} {k : ℤ} (hk : 0 ≤ k) (h : |q| < (2 : ℚ) ^ (k + 1)) :
    binade q ≤ k := by
  rcases eq_or_ne q 0 with rfl | hq
  · simp [binade, Int.log_zero_right]
    exact hk
  · have a2 : Int.log 2 |q| < k + 1 :=
      (Int.lt_zpow_iff_log_lt (R := ℚ) (b := 2) (by norm_num) (abs_pos.mpr hq)).mp
        (by simpa using h)
    unfold binade
    exact max_le (by omega) (by omega)

/-- Rounding keeps a value inside a symmetric interval whose end point is representable. -/
theorem abs_round32_le_of_abs_le {q : ℚ} {k : ℤ} (m : ℕ) (hk : binade q - 23 ≤ k)
    (h : |q| ≤ (m : ℚ) * (2 : ℚ) ^ k) : |round32 q| ≤ (m : ℚ) * (2 : ℚ) ^ k := by
  rw [abs_le] at h ⊢
  constructor
  · have := le_round32_of_grid_le q hk (-(m : ℤ)) (by push_cast; linarith [h.1])
    push_cast at this
    linarith
  · have := round32_le_of_le_grid q hk (m : ℤ) (by push_cast; exact h.2)
    push_cast at this
    exact this

/-- The conversion `int → float` is exact up to `2^24` in magnitude. -/
theorem round32_intCast {z : ℤ} (h : |z| ≤ 2 ^ 24) : round32 (z : ℚ) = z := by
  have hq : |(z : ℚ)| ≤ 2 ^ 24 := by exact_mod_cast h
  rcases lt_or_eq_of_le hq with hlt | heq
  · have hb : binade (z : ℚ) ≤ 23 := binade_le_of_abs_lt (by norm_num) (by norm_num; exact hlt)
    exact round32_eq_self (z : ℚ) (k := 0) (by omega) z (by simp)
  · have hb : binade (z : ℚ) = 24 :=
      binade_eq_of_bounds (by norm_num) (by rw [heq]; norm_num) (by rw [heq]; norm_num)
    rcases abs_eq (by norm_num : (0 : ℚ) ≤ 2 ^ 24) |>.mp heq with h1 | h1
    · exact round32_eq_self (z : ℚ) (k := 1) (by omega) (2 ^ 23) (by rw [h1]; norm_num)
    · exact round32_eq_self (z : ℚ) (k := 1) (by omega) (-2 ^ 23) (by rw [h1]; norm_num)

theorem world2grid_eq_some_iff (P : Planner) (p : Vector2f) (c : Vector2i) :
    world2grid P p = some c ↔
      floatToInt (F32.mul (F32.fin p.x) (F32.fin P._map_inverse_resolution)) = some c.x ∧
        floatToInt (F32.mul (F32.fin p.y) (F32.fin P._map_inverse_resolution)) = some c.y := by
  cases c with
  | mk cx cy =>
    unfold world2grid
    cases h1 : floatToInt (F32.mul (F32.fin p.x) (F32.fin P._map_inverse_resolution)) <;>
      cases h2 : floatToInt (F32.mul (F32.fin p.y) (F32.fin P._map_inverse_resolution)) <;>
      simp

/-- Evaluation of `world2grid` from the two rounded products. -/
theorem world2grid_eq_some_of (P : Planner) (p : Vector2f) (cx cy : ℤ)
    (hx : truncToZero (round32 (p.x * P._map_inverse_resolution)) = cx)
    (hy : truncToZero (round32 (p.y * P._map_inverse_resolution)) = cy)
    (hxr : -2 ^ 31 ≤ cx ∧ cx < 2 ^ 31) (hyr : -2 ^ 31 ≤ cy ∧ cy < 2 ^ 31) :
    world2grid P p = some ⟨cx, cy⟩ := by
  rw [world2grid_eq_some_iff]
  exact ⟨(floatToInt_mul_eq_some_iff _ _ _).mpr ⟨hx.symm, hxr.1, hxr.2⟩,
    (floatToInt_mul_eq_some_iff _ _ _).mpr ⟨hy.symm, hyr.1, hyr.2⟩⟩

/-- The conversion to `int` of a product is defined when the exact product is at most
`2^31 - 128` in magnitude, the largest binary32 value below `2^31`. -/
theorem floatToInt_mul_defined {a b : ℚ} (h : |a * b| ≤ 2147483520) :
    ∃ t : ℤ, floatToInt (F32.mul (F32.fin a) (F32.fin b)) = some t := by
  have hb : binade (a * b) ≤ 30 :=
    binade_le_of_abs_lt (by norm_num) (lt_of_le_of_lt h (by norm_num))
  have hr : |round32 (a * b)| ≤ ((16777215 : ℕ) : ℚ) * (2 : ℚ) ^ (7 : ℤ) :=
    abs_round32_le_of_abs_le 16777215 (by omega) (by norm_num; exact h)
  have ht := (abs_truncToZero_le (round32 (a * b))).trans hr
  norm_num at ht
  rw [abs_le] at ht
  refine ⟨truncToZero (round32 (a * b)), (floatToInt_mul_eq_some_iff _ _ _).mpr ⟨rfl, ?_, ?_⟩⟩
  · have : (-2147483520 : ℚ) ≤ (truncToZero (round32 (a * b)) : ℚ) := ht.1
    have h' : (-2147483520 : ℤ) ≤ truncToZero (round32 (a * b)) := by exact_mod_cast this
    omega
  · have : (truncToZero (round32 (a * b)) : ℚ) ≤ 2147483520 := ht.2
    have h' : truncToZero (round32 (a * b)) ≤ (2147483520 : ℤ) := by exact_mod_cast this
    omega

/-! ## Coordinate conversions -/

/-- Claim C10, as stated, fails: with `_map_inverse_resolution = 1` and the world points
`p = (1, 0)` and `q = (3000000000, 0)` (both binary32 values), `p.x ≤ q.x`, `world2grid p` is
the cell `(1, 0)`, and `world2grid q` has no value: the product `3000000000` does not fit a
32-bit `int`, so its conversion is undefined and no cell is ordered after `(1, 0)`. -/
theorem world2grid_monotone_counterexample :
    round32 3000000000 = 3000000000 ∧
    (1 : ℚ) ≤ 3000000000 ∧
    world2grid (samplePlanner 1 1 Isometry2f.identity ⟨0, 0⟩ State.WaitingForGoal) ⟨1, 0⟩
      = some ⟨1, 0⟩ ∧
    world2grid (samplePlanner 1 1 Isometry2f.identity ⟨0, 0⟩ State.WaitingForGoal)
      ⟨3000000000, 0⟩ = none := by
  have hbig : round32 3000000000 = 3000000000 :=
    round32_eq_self_of_bounds (e := 31) 11718750 (by norm_num) (by norm_num [abs_of_nonneg])
      (by norm_num [abs_lt]) (by norm_num)
  have h1 : round32 1 = 1 := by simpa using round32_intCast (z := 1) (by norm_num)
  refine ⟨hbig, by norm_num, ?_, ?_⟩
  · apply world2grid_eq_some_of
    · simp only [samplePlanner, mul_one, h1]
      simpa using truncToZero_intCast 1
    · simp only [samplePlanner, mul_one, zero_mul, round32_zero]
      simpa using truncToZero_intCast 0
    · norm_num
    · norm_num
  · cases hw : world2grid (samplePlanner 1 1 Isometry2f.identity ⟨0, 0⟩ State.WaitingForGoal)
        ⟨3000000000, 0⟩ with
    | none => rfl
    | some c =>
      exfalso
      have hx := ((world2grid_eq_some_iff _ _ _).mp hw).1
      have ht := (floatToInt_mul_eq_some_iff _ _ _).mp hx
      simp only [samplePlanner, mul_one, hbig] at ht
      have e : truncToZero (3000000000 : ℚ) = 3000000000 := by
        simpa using truncToZero_intCast 3000000000
      rw [e] at ht
      omega

/-- Claim C10, amended: `world2grid` is monotone per coordinate wherever it is defined.  For
every `_map_inverse_resolution ≥ 0` and all finite world points `p`, `q`: `world2grid p` is
defined whenever both scaled coordinates `p.x * inv`, `p.y * inv` are at most `2^31 - 128` in
magnitude; and whenever `world2grid p` and `world2grid q` are both defined, `p.x ≤ q.x` implies
`(world2grid p).x ≤ (world2grid q).x`, `p.y ≤ q.y` implies
`(world2grid p).y ≤ (world2grid q).y`, and the `x` result depends only on `p.x`, the `y`
result only on `p.y`. -/
theorem world2grid_monotone (P : Planner) (p q : Vector2f)
    (h : 0 ≤ P._map_inverse_resolution) :
    ((|p.x * P._map_inverse_resolution| ≤ 2147483520 ∧
        |p.y * P._map_inverse_resolution| ≤ 2147483520) → ∃ a, world2grid P p = some a) ∧
    (∀ a b : Vector2i, world2grid P p = some a → world2grid P q = some b →
      (p.x ≤ q.x → a.x ≤ b.x) ∧ (p.y ≤ q.y → a.y ≤ b.y) ∧
      (p.x = q.x → a.x = b.x) ∧ (p.y = q.y → a.y = b.y)) := by
  constructor
  · rintro ⟨hx, hy⟩
    obtain ⟨tx, htx⟩ := floatToInt_mul_defined hx
    obtain ⟨ty, hty⟩ := floatToInt_mul_defined hy
    exact ⟨⟨tx, ty⟩, (world2grid_eq_some_iff P p ⟨tx, ty⟩).mpr ⟨htx, hty⟩⟩
  · intro a b ha hb
    obtain ⟨hax, hay⟩ := (world2grid_eq_some_iff P p a).mp ha
    obtain ⟨hbx, hby⟩ := (world2grid_eq_some_iff P q b).mp hb
    have eax := ((floatToInt_mul_eq_some_iff _ _ _).mp hax).1
    have eay := ((floatToInt_mul_eq_some_iff _ _ _).mp hay).1
    have ebx := ((floatToInt_mul_eq_some_iff _ _ _).mp hbx).1
    have eby := ((floatToInt_mul_eq_some_iff _ _ _).mp hby).1
    refine ⟨fun hx => ?_, fun hy => ?_, fun hx => ?_, fun hy => ?_⟩
    · rw [eax, ebx]
      exact truncToZero_mono (round32_mono (mul_le_mul_of_nonneg_right hx h))
    · rw [eay, eby]
      exact truncToZero_mono (round32_mono (mul_le_mul_of_nonneg_right hy h))
    · rw [eax, ebx, hx]
    · rw [eay, eby, hy]

/-- Witness for C10: on the map of inverse resolution `4`, the points `(-3/8, 1/2)` and
`(7/8, 1/2)`. -/
theorem world2grid_monotone_witness :
    0 ≤ planner0._map_inverse_resolution ∧
    (((|(-3 / 8 : ℚ) * planner0._map_inverse_resolution| ≤ 2147483520 ∧
        |(1 / 2 : ℚ) * planner0._map_inverse_resolution| ≤ 2147483520) →
        ∃ a, world2grid planner0 ⟨-3 / 8, 1 / 2⟩ = some a) ∧
      (∀ a b : Vector2i, world2grid planner0 ⟨-3 / 8, 1 / 2⟩ = some a →
        world2grid planner0 ⟨7 / 8, 1 / 2⟩ = some b →
        (((-3 / 8 : ℚ) ≤ 7 / 8 → a.x ≤ b.x) ∧ ((1 / 2 : ℚ) ≤ 1 / 2 → a.y ≤ b.y) ∧
          ((-3 / 8 : ℚ) = 7 / 8 → a.x = b.x) ∧ ((1 / 2 : ℚ) = 1 / 2 → a.y = b.y)))) :=
  ⟨by norm_num [planner0, samplePlanner],
   world2grid_monotone planner0 ⟨-3 / 8, 1 / 2⟩ ⟨7 / 8, 1 / 2⟩
     (by norm_num [planner0, samplePlanner])⟩

/-- The two cells of the monotonicity example, evaluated: `(-1, 2)` and `(3, 2)`. -/
theorem world2grid_planner0_pair_value :
    world2grid planner0 ⟨-3 / 8, 1 / 2⟩ = some ⟨-1, 2⟩ ∧
      world2grid planner0 ⟨7 / 8, 1 / 2⟩ = some ⟨3, 2⟩ := by
  have h1 : round32 (-3 / 8 * 4) = -3 / 2 := by
    rw [round32_eq_self_of_bounds (e := 0) (-12582912) (by norm_num)
      (by norm_num [abs_of_neg]) (by norm_num [abs_lt]) (by norm_num)]
    norm_num
  have h2 : round32 (1 / 2 * 4) = 2 := by
    rw [round32_eq_self_of_bounds (e := 1) 8388608 (by norm_num)
      (by norm_num [abs_of_nonneg]) (by norm_num [abs_lt]) (by norm_num)]
    norm_num
  have h3 : round32 (7 / 8 * 4) = 7 / 2 := by
    rw [round32_eq_self_of_bounds (e := 1) 14680064 (by norm_num)
      (by norm_num [abs_of_nonneg]) (by norm_num [abs_lt]) (by norm_num)]
    norm_num
  constructor
  · apply world2grid_eq_some_of
    · simp only [planner0, samplePlanner, h1]
      norm_num [truncToZero_eq, Int.ceil_eq_iff]
    · simp only [planner0, samplePlanner, h2]
      norm_num [truncToZero_eq]
    · norm_num
    · norm_num
  · apply world2grid_eq_some_of
    · simp only [planner0, samplePlanner, h3]
      norm_num [truncToZero_eq, Int.floor_eq_iff]
    · simp only [planner0, samplePlanner, h2]
      norm_num [truncToZero_eq]
    · norm_num
    · norm_num

theorem abs_le_of_abs_sub_le {u v e : ℚ} (h : |u - v| ≤ e) : |u| ≤ |v| + e := by
  have := abs_add (u - v) v
  rw [sub_add_cancel] at this
  linarith

theorem abs_ge_of_abs_sub_le {u v e : ℚ} (h : |u - v| ≤ e) : |v| - e ≤ |u| := by
  have := abs_sub_abs_le_abs_sub v u
  rw [abs_sub_comm v u] at this
  linarith

/-- An inverse resolution within binary32 accuracy of `1 / r` is positive and its product with
`r` is close to one. -/
theorem inverse_resolution_pos {r i : ℚ} (hr : 0 < r) (hR : |r * i - 1| ≤ 1 / 2 ^ 24) :
    0 < i ∧ 1 - 1 / 2 ^ 24 ≤ r * i ∧ r * i ≤ 1 + 1 / 2 ^ 24 := by
  rw [abs_le] at hR
  have h1 : 1 - 1 / 2 ^ 24 ≤ r * i := by linarith
  have h2 : r * i ≤ 1 + 1 / 2 ^ 24 := by linarith
  refine ⟨?_, h1, h2⟩
  by_contra hneg
  have hi : i ≤ 0 := not_lt.mp hneg
  have : r * i ≤ 0 := mul_nonpos_of_nonneg_of_nonpos hr.le hi
  norm_num at h1
  linarith

/-- The binary32 quotient `1 / r` of a resolution between `2^-126` and `2^126` agrees with the
exact reciprocal to one part in `2^24`. -/
theorem reciprocal_accuracy {r : ℚ} (hr1 : (2 : ℚ) ^ (-126 : ℤ) ≤ r)
    (hr2 : r ≤ (2 : ℚ) ^ (126 : ℤ)) : |r * round32 (1 / r) - 1| ≤ 1 / 2 ^ 24 := by
  have hr : 0 < r := lt_of_lt_of_le (by positivity) hr1
  have hinv : (2 : ℚ) ^ (-126 : ℤ) ≤ |1 / r| := by
    rw [abs_of_pos (by positivity), le_div_iff₀ hr]
    calc (2 : ℚ) ^ (-126 : ℤ) * r ≤ (2 : ℚ) ^ (-126 : ℤ) * (2 : ℚ) ^ (126 : ℤ) :=
          mul_le_mul_of_nonneg_left hr2 (by positivity)
      _ = 1 := by norm_num
  have h := round32_rel hinv
  have e : r * round32 (1 / r) - 1 = r * (round32 (1 / r) - 1 / r) := by
    field_simp
    ring
  rw [e, abs_mul, abs_of_pos hr]
  calc r * |round32 (1 / r) - 1 / r| ≤ r * (|1 / r| / 2 ^ 24) :=
        mul_le_mul_of_nonneg_left h hr.le
    _ = 1 / 2 ^ 24 := by
        rw [abs_of_pos (by positivity)]
        field_simp

/-- The binary32 product of a non-zero integer and a normal resolution is accurate to one part
in `2^24`; the product with zero is exact. -/
theorem round32_int_mul_rel {r : ℚ} (hr1 : (2 : ℚ) ^ (-126 : ℤ) ≤ r) (g : ℤ) :
    |round32 ((g : ℚ) * r) - (g : ℚ) * r| ≤ |(g : ℚ) * r| / 2 ^ 24 := by
  rcases eq_or_ne g 0 with rfl | hg
  · simp [round32_zero]
  · apply round32_rel
    have hr : 0 < r := lt_of_lt_of_le (by positivity) hr1
    have h1 : (1 : ℚ) ≤ |(g : ℚ)| := by
      have : (1 : ℤ) ≤ |g| := Int.one_le_abs hg
      exact_mod_cast this
    rw [abs_mul, abs_of_pos hr]
    calc (2 : ℚ) ^ (-126 : ℤ) ≤ r := hr1
      _ = 1 * r := (one_mul r).symm
      _ ≤ |(g : ℚ)| * r := mul_le_mul_of_nonneg_right h1 hr.le

/-- Three roundings in a row: scaling by `r`, scaling back by `i` with `r * i` close to one. -/
theorem chain_bound {z r i w x : ℚ} (hR : |r * i - 1| ≤ 1 / 2 ^ 24)
    (hw : |w - z * r| ≤ |z * r| / 2 ^ 24) (hx : |x - w * i| ≤ |w * i| / 2 ^ 24) :
    |x - z| ≤ |z| * (3 / 2 ^ 24 + 3 / 2 ^ 48 + 1 / 2 ^ 72) := by
  have hZ := abs_nonneg z
  have hI := abs_nonneg i
  have hRi : |r| * |i| ≤ 1 + 1 / 2 ^ 24 := by
    rw [← abs_mul]
    have := abs_le_of_abs_sub_le hR
    simpa using this
  have hzr : |z * r| * |i| ≤ |z| * (1 + 1 / 2 ^ 24) := by
    rw [abs_mul, mul_assoc]
    exact mul_le_mul_of_nonneg_left hRi hZ
  have hW : |w| ≤ |z * r| * (1 + 1 / 2 ^ 24) := by
    have := abs_le_of_abs_sub_le hw
    linarith
  have hWi : |w * i| ≤ |z| * (1 + 1 / 2 ^ 24) * (1 + 1 / 2 ^ 24) := by
    rw [abs_mul]
    calc |w| * |i| ≤ |z * r| * (1 + 1 / 2 ^ 24) * |i| := mul_le_mul_of_nonneg_right hW hI
      _ = |z * r| * |i| * (1 + 1 / 2 ^ 24) := by ring
      _ ≤ |z| * (1 + 1 / 2 ^ 24) * (1 + 1 / 2 ^ 24) :=
          mul_le_mul_of_nonneg_right hzr (by norm_num)
  have e : x - z = (x - w * i) + (w - z * r) * i + z * (r * i - 1) := by ring
  have t1 : |x - z| ≤ |x - w * i| + |(w - z * r) * i| + |z * (r * i - 1)| := by
    rw [e]
    exact (abs_add _ _).trans (add_le_add_right (abs_add _ _) _)
  have t2 : |(w - z * r) * i| ≤ |z| * (1 + 1 / 2 ^ 24) / 2 ^ 24 := by
    rw [abs_mul]
    calc |w - z * r| * |i| ≤ |z * r| / 2 ^ 24 * |i| := mul_le_mul_of_nonneg_right hw hI
      _ = |z * r| * |i| / 2 ^ 24 := by ring
      _ ≤ |z| * (1 + 1 / 2 ^ 24) / 2 ^ 24 := div_le_div_of_nonneg_right hzr (by norm_num)
  have t3 : |z * (r * i - 1)| ≤ |z| * (1 / 2 ^ 24) := by
    rw [abs_mul]
    exact mul_le_mul_of_nonneg_left hR hZ
  have t4 : |x - w * i| ≤ |z| * (1 + 1 / 2 ^ 24) * (1 + 1 / 2 ^ 24) / 2 ^ 24 :=
    hx.trans (div_le_div_of_nonneg_right hWi (by norm_num))
  calc |x - z| ≤ |x - w * i| + |(w - z * r) * i| + |z * (r * i - 1)| := t1
    _ ≤ |z| * (1 + 1 / 2 ^ 24) * (1 + 1 / 2 ^ 24) / 2 ^ 24
        + |z| * (1 + 1 / 2 ^ 24) / 2 ^ 24 + |z| * (1 / 2 ^ 24) := by linarith
    _ = |z| * (3 / 2 ^ 24 + 3 / 2 ^ 48 + 1 / 2 ^ 72) := by ring

theorem intToFloat_eq_fin {z : ℤ} (h : |z| ≤ 2 ^ 24) : intToFloat z = F32.fin (z : ℚ) := by
  unfold intToFloat
  have hq : |(z : ℚ)| ≤ 2 ^ 24 := by exact_mod_cast h
  rw [F32.ofRat_of_lt (by rw [round32_intCast h]; exact lt_of_le_of_lt hq (by norm_num)),
    round32_intCast h]

/-- The product computed by `grid2world` for one coordinate: finite whenever the exact product
is at most `2^127` in magnitude and the cell index is at most `2^24`. -/
theorem grid2world_coordinate {r : ℚ} {z : ℤ} (hz : |z| ≤ 2 ^ 24)
    (h : |(z : ℚ) * r| ≤ 2 ^ 127) :
    (F32.mul (intToFloat z) (F32.fin r)).value = some (round32 ((z : ℚ) * r)) := by
  have hb : binade ((z : ℚ) * r) ≤ 127 :=
    binade_le_of_abs_lt (by norm_num) (lt_of_le_of_lt h (by norm_num))
  have hr : |round32 ((z : ℚ) * r)| ≤ ((1 : ℕ) : ℚ) * (2 : ℚ) ^ (127 : ℤ) :=
    abs_round32_le_of_abs_le 1 (by omega) (by norm_num at h ⊢; exact h)
  rw [intToFloat_eq_fin hz, F32.mul_fin_of_lt (lt_of_le_of_lt hr (by norm_num))]
  rfl

theorem grid2world_eq_some_of (P : Planner) (c : Vector2i) (wx wy : ℚ)
    (hx : (F32.mul (intToFloat c.x) (F32.fin P._map_resolution)).value = some wx)
    (hy : (F32.mul (intToFloat c.y) (F32.fin P._map_resolution)).value = some wy) :
    grid2world P c = some ⟨wx, wy⟩ := by
  unfold grid2world
  rw [hx, hy]

theorem sign_bounds (z : ℤ) : -1 ≤ Int.sign z ∧ Int.sign z ≤ 1 := by
  rcases lt_trichotomy z 0 with h | h | h
  · rw [Int.sign_eq_neg_one_of_neg h]
    omega
  · rw [h]
    simp
  · rw [Int.sign_eq_one_of_pos h]
    omega

/-- One coordinate of the round trip: a cell index up to `2^22` comes back as itself or as its
neighbour one step toward zero. -/
theorem round_trip_coordinate {r i : ℚ} {z : ℤ} (hr1 : (2 : ℚ) ^ (-126 : ℤ) ≤ r)
    (hr2 : r ≤ 2 ^ 100) (hR : |r * i - 1| ≤ 1 / 2 ^ 24) (hz : |z| ≤ 2 ^ 22) :
    (F32.mul (intToFloat z) (F32.fin r)).value = some (round32 ((z : ℚ) * r)) ∧
      ∃ t : ℤ, floatToInt (F32.mul (F32.fin (round32 ((z : ℚ) * r))) (F32.fin i)) = some t ∧
        (t = z ∨ t = z - Int.sign z) := by
  have hr : 0 < r := lt_of_lt_of_le (by positivity) hr1
  obtain ⟨hi, hRl, hRu⟩ := inverse_resolution_pos hr hR
  have hzq : |(z : ℚ)| ≤ 2 ^ 22 := by exact_mod_cast hz
  have hzr : |(z : ℚ) * r| ≤ 2 ^ 127 := by
    rw [abs_mul, abs_of_pos hr]
    calc |(z : ℚ)| * r ≤ 2 ^ 22 * 2 ^ 100 := mul_le_mul hzq hr2 hr.le (by norm_num)
      _ ≤ 2 ^ 127 := by norm_num
  refine ⟨grid2world_coordinate (hz.trans (by norm_num)) hzr, ?_⟩
  have hw := round32_int_mul_rel hr1 z
  -- the second product is in the normal range, or zero
  have hx : |round32 (round32 ((z : ℚ) * r) * i) - round32 ((z : ℚ) * r) * i|
      ≤ |round32 ((z : ℚ) * r) * i| / 2 ^ 24 := by
    rcases eq_or_ne z 0 with rfl | hz0
    · simp [round32_zero]
    · apply round32_rel
      have h1 : (1 : ℚ) ≤ |(z : ℚ)| := by
        have : (1 : ℤ) ≤ |z| := Int.one_le_abs hz0
        exact_mod_cast this
      have h2 : r ≤ |(z : ℚ) * r| := by
        rw [abs_mul, abs_of_pos hr]
        calc r = 1 * r := (one_mul r).symm
          _ ≤ |(z : ℚ)| * r := mul_le_mul_of_nonneg_right h1 hr.le
      have h3 : |(z : ℚ) * r| * (1 - 1 / 2 ^ 24) ≤ |round32 ((z : ℚ) * r)| := by
        have := abs_ge_of_abs_sub_le hw
        linarith
      have h4 : r * (1 - 1 / 2 ^ 24) ≤ |round32 ((z : ℚ) * r)| :=
        (mul_le_mul_of_nonneg_right h2 (by norm_num)).trans h3
      rw [abs_mul, abs_of_pos hi]
      have h5 : r * (1 - 1 / 2 ^ 24) * i ≤ |round32 ((z : ℚ) * r)| * i :=
        mul_le_mul_of_nonneg_right h4 hi.le
      have h6 : (1 - 1 / 2 ^ 24) * (1 - 1 / 2 ^ 24) ≤ r * (1 - 1 / 2 ^ 24) * i := by
        have : (1 - 1 / 2 ^ 24) * (1 - 1 / 2 ^ 24) ≤ (r * i) * (1 - 1 / 2 ^ 24 : ℚ) :=
          mul_le_mul_of_nonneg_right hRl (by norm_num)
        linarith
      calc (2 : ℚ) ^ (-126 : ℤ) ≤ (1 - 1 / 2 ^ 24) * (1 - 1 / 2 ^ 24) := by norm_num
        _ ≤ r * (1 - 1 / 2 ^ 24) * i := h6
        _ ≤ |round32 ((z : ℚ) * r)| * i := h5
  have hnear : |round32 (round32 ((z : ℚ) * r) * i) - (z : ℚ)| < 1 := by
    have hc := chain_bound hR hw hx
    rcases eq_or_ne z 0 with rfl | hz0
    · simp at hc
      simp [hc]
    · have hpos : (0 : ℚ) < |(z : ℚ)| := abs_pos.mpr (by exact_mod_cast hz0)
      calc |round32 (round32 ((z : ℚ) * r) * i) - (z : ℚ)|
          ≤ |(z : ℚ)| * (3 / 2 ^ 24 + 3 / 2 ^ 48 + 1 / 2 ^ 72) := hc
        _ < |(z : ℚ)| * (1 / 2 ^ 22) := mul_lt_mul_of_pos_left (by norm_num) hpos
        _ ≤ 2 ^ 22 * (1 / 2 ^ 22) := mul_le_mul_of_nonneg_right hzq (by norm_num)
        _ = 1 := by norm_num
  have hcases := truncToZero_of_near hnear
  refine ⟨truncToZero (round32 (round32 ((z : ℚ) * r) * i)),
    (floatToInt_mul_eq_some_iff _ _ _).mpr ⟨rfl, ?_, ?_⟩, hcases⟩
  · have hs := sign_bounds z
    have hz' := abs_le.mp hz
    rcases hcases with h | h <;> rw [h] <;> omega
  · have hs := sign_bounds z
    have hz' := abs_le.mp hz
    rcases hcases with h | h <;> rw [h] <;> omega


/-- Evaluation of `grid2world` from the two conversions and the two rounded products. -/
theorem grid2world_eval (P : Planner) (c : Vector2i) (fx fy wx wy : ℚ)
    (hfx : round32 (c.x : ℚ) = fx) (hfy : round32 (c.y : ℚ) = fy)
    (hwx : round32 (fx * P._map_resolution) = wx) (hwy : round32 (fy * P._map_resolution) = wy)
    (bfx : |fx| < 2 ^ 128) (bfy : |fy| < 2 ^ 128) (bwx : |wx| < 2 ^ 128)
    (bwy : |wy| < 2 ^ 128) :
    grid2world P c = some ⟨wx, wy⟩ := by
  apply grid2world_eq_some_of
  · unfold intToFloat
    rw [F32.ofRat_of_lt (by rw [hfx]; exact bfx), hfx,
      F32.mul_fin_of_lt (by rw [hwx]; exact bwx), hwx]
    rfl
  · unfold intToFloat
    rw [F32.ofRat_of_lt (by rw [hfy]; exact bfy), hfy,
      F32.mul_fin_of_lt (by rw [hwy]; exact bwy), hwy]
    rfl

/-- Claim C1, as stated, fails, also when `_map_inverse_resolution` is the binary32 reciprocal
of `_map_resolution`.  With resolution `1` and inverse resolution `1`, the cell
`(16777217, 0)` is converted to the float `16777216` by `grid2world` and comes back as the
cell `(16777216, 0)`.  With resolution `0.02f = 5368709 / 2^28` and inverse resolution `50`
(the binary32 quotient `1 / 0.02f`), the cell `(5, 5)` goes to the world point
`3355443 / 2^25 = 0.09999999…` in both coordinates, whose product with `50` rounds to
`4.9999995…`, and comes back as the cell `(4, 4)`. -/
theorem world2grid_grid2world_counterexample :
    (grid2world (samplePlanner 1 1 Isometry2f.identity ⟨0, 0⟩ State.WaitingForGoal)
        ⟨16777217, 0⟩ = some ⟨16777216, 0⟩ ∧
      world2grid (samplePlanner 1 1 Isometry2f.identity ⟨0, 0⟩ State.WaitingForGoal)
        ⟨16777216, 0⟩ = some ⟨16777216, 0⟩) ∧
    (round32 (1 / 50) = 5368709 / 268435456 ∧
      round32 (1 / (5368709 / 268435456)) = 50 ∧
      grid2world
          (samplePlanner (5368709 / 268435456) 50 Isometry2f.identity ⟨0, 0⟩
            State.WaitingForGoal) ⟨5, 5⟩
        = some ⟨3355443 / 33554432, 3355443 / 33554432⟩ ∧
      world2grid
          (samplePlanner (5368709 / 268435456) 50 Isometry2f.identity ⟨0, 0⟩
            State.WaitingForGoal) ⟨3355443 / 33554432, 3355443 / 33554432⟩
        = some ⟨4, 4⟩) := by
  have a1 : round32 ((16777217 : ℤ) : ℚ) = 16777216 := by
    rw [round32_eq_of_tie (e := 24) 8388608 (by norm_num) (by norm_num [abs_of_nonneg])
      (by norm_num [abs_lt]) (by norm_num) (by norm_num)]
    norm_num
  have a2 : round32 (16777216 * 1) = 16777216 := by
    rw [round32_eq_self_of_bounds (e := 24) 8388608 (by norm_num)
      (by norm_num [abs_of_nonneg]) (by norm_num [abs_lt]) (by norm_num)]
    norm_num
  have a3 : round32 ((0 : ℤ) : ℚ) = 0 := by simpa using round32_zero
  have a4 : round32 (0 * 1) = 0 := by simpa using round32_zero
  have b0 : round32 (1 / 50) = 5368709 / 268435456 := by
    rw [round32_eq_of_near (e := -6) 10737418 (by norm_num) (by norm_num [abs_of_nonneg])
      (by norm_num [abs_lt]) (by norm_num [abs_lt])]
    norm_num
  have b1 : round32 (1 / (5368709 / 268435456)) = 50 := by
    rw [round32_eq_of_near (e := 5) 13107200 (by norm_num) (by norm_num [abs_of_nonneg])
      (by norm_num [abs_lt]) (by norm_num [abs_lt])]
    norm_num
  have b2 : round32 ((5 : ℤ) : ℚ) = 5 := round32_intCast (by norm_num)
  have b3 : round32 (5 * (5368709 / 268435456)) = 3355443 / 33554432 := by
    rw [round32_eq_of_tie (e := -4) 13421772 (by norm_num) (by norm_num [abs_of_nonneg])
      (by norm_num [abs_lt]) (by norm_num) (by norm_num)]
    norm_num
  have b4 : round32 (3355443 / 33554432 * 50) = 10485759 / 2097152 := by
    rw [round32_eq_of_near (e := 2) 10485759 (by norm_num) (by norm_num [abs_of_nonneg])
      (by norm_num [abs_lt]) (by norm_num [abs_lt])]
    norm_num
  have t1 : truncToZero (16777216 : ℚ) = 16777216 := by
    simpa using truncToZero_intCast 16777216
  have t0 : truncToZero (0 : ℚ) = 0 := by simpa using truncToZero_intCast 0
  have t4 : truncToZero (10485759 / 2097152 : ℚ) = 4 := by
    norm_num [truncToZero_eq, Int.floor_eq_iff]
  refine ⟨⟨?_, ?_⟩, b0, b1, ?_, ?_⟩
  · exact grid2world_eval _ _ 16777216 0 16777216 0 a1 a3 (by simpa [samplePlanner] using a2)
      (by simpa [samplePlanner] using a4) (by norm_num) (by norm_num) (by norm_num)
      (by norm_num)
  · apply world2grid_eq_some_of
    · simp only [samplePlanner, a2, t1]
    · simp only [samplePlanner, a4, t0]
    · norm_num
    · norm_num
  · exact grid2world_eval _ _ 5 5 (3355443 / 33554432) (3355443 / 33554432) b2 b2
      (by simpa [samplePlanner] using b3) (by simpa [samplePlanner] using b3)
      (by norm_num [abs_lt]) (by norm_num [abs_lt]) (by norm_num [abs_lt])
      (by norm_num [abs_lt])
  · apply world2grid_eq_some_of
    · simp only [samplePlanner, b4, t4]
    · simp only [samplePlanner, b4, t4]
    · norm_num
    · norm_num

/-- Claim C1, amended: the world-grid round trip returns the cell or its neighbour one step
toward zero.  For every planner whose resolution `r` is a normal binary32 value between
`2^-126` and `2^100`, whose inverse resolution agrees with `1 / r` to binary32 accuracy
(`|r * inv - 1| ≤ 2^-24`), and every grid cell `c` with both coordinates at most `2^22` in
magnitude: `grid2world c` is a finite world point, `world2grid` is defined on it, and each
coordinate of `world2grid (grid2world c)` is the coordinate of `c` or that coordinate moved
by one toward zero. -/
theorem world2grid_grid2world (P : Planner) (c : Vector2i)
    (hr1 : (2 : ℚ) ^ (-126 : ℤ) ≤ P._map_resolution) (hr2 : P._map_resolution ≤ 2 ^ 100)
    (hinv : |P._map_resolution * P._map_inverse_resolution - 1| ≤ 1 / 2 ^ 24)
    (hcx : |c.x| ≤ 2 ^ 22) (hcy : |c.y| ≤ 2 ^ 22) :
    ∃ w c', grid2world P c = some w ∧ world2grid P w = some c' ∧
      (c'.x = c.x ∨ c'.x = c.x - Int.sign c.x) ∧
      (c'.y = c.y ∨ c'.y = c.y - Int.sign c.y) := by
  obtain ⟨hwx, tx, htx, hx⟩ := round_trip_coordinate hr1 hr2 hinv hcx
  obtain ⟨hwy, ty, hty, hy⟩ := round_trip_coordinate hr1 hr2 hinv hcy
  exact ⟨_, ⟨tx, ty⟩, grid2world_eq_some_of P c _ _ hwx hwy,
    (world2grid_eq_some_iff P _ ⟨tx, ty⟩).mpr ⟨htx, hty⟩, hx, hy⟩

/-- Witness for C1: the map of resolution `1/4` (inverse resolution `4`) and the cell
`(3, -5)`. -/
theorem world2grid_grid2world_witness :
    (2 : ℚ) ^ (-126 : ℤ) ≤ planner0._map_resolution ∧
    planner0._map_resolution ≤ 2 ^ 100 ∧
    |planner0._map_resolution * planner0._map_inverse_resolution - 1| ≤ 1 / 2 ^ 24 ∧
    |(3 : ℤ)| ≤ 2 ^ 22 ∧ |(-5 : ℤ)| ≤ 2 ^ 22 ∧
    ∃ w c', grid2world planner0 ⟨3, -5⟩ = some w ∧ world2grid planner0 w = some c' ∧
      (c'.x = 3 ∨ c'.x = 3 - Int.sign 3) ∧ (c'.y = -5 ∨ c'.y = -5 - Int.sign (-5)) :=
  ⟨by norm_num [planner0, samplePlanner], by norm_num [planner0, samplePlanner],
   by norm_num [planner0, samplePlanner], by norm_num [abs_le], by norm_num [abs_le],
   world2grid_grid2world planner0 ⟨3, -5⟩ (by norm_num [planner0, samplePlanner])
     (by norm_num [planner0, samplePlanner]) (by norm_num [planner0, samplePlanner])
     (by norm_num [abs_le]) (by norm_num [abs_le])⟩


/-- The round trip of the cell `(3, -5)` on the map of resolution `1/4`, evaluated: the world
point `(3/4, -5/4)` and back to `(3, -5)`. -/
theorem world2grid_grid2world_planner0_value :
    grid2world planner0 ⟨3, -5⟩ = some ⟨3 / 4, -5 / 4⟩ ∧
      world2grid planner0 ⟨3 / 4, -5 / 4⟩ = some ⟨3, -5⟩ := by
  have a1 : round32 ((3 : ℤ) : ℚ) = 3 := round32_intCast (by norm_num)
  have a2 : round32 ((-5 : ℤ) : ℚ) = -5 := by
    simpa using round32_intCast (z := -5) (by norm_num [abs_le])
  have a3 : round32 (3 * (1 / 4)) = 3 / 4 := by
    rw [round32_eq_self_of_bounds (e := -1) 12582912 (by norm_num)
      (by norm_num [abs_of_nonneg]) (by norm_num [abs_lt]) (by norm_num)]
    norm_num
  have a4 : round32 (-5 * (1 / 4)) = -5 / 4 := by
    rw [round32_eq_self_of_bounds (e := 0) (-10485760) (by norm_num)
      (by norm_num [abs_of_neg]) (by norm_num [abs_lt]) (by norm_num)]
    norm_num
  have a5 : round32 (3 / 4 * 4) = 3 := by
    rw [round32_eq_self_of_bounds (e := 1) 12582912 (by norm_num)
      (by norm_num [abs_of_nonneg]) (by norm_num [abs_lt]) (by norm_num)]
    norm_num
  have a6 : round32 (-5 / 4 * 4) = -5 := by
    rw [round32_eq_self_of_bounds (e := 2) (-10485760) (by norm_num)
      (by norm_num [abs_of_neg]) (by norm_num [abs_lt]) (by norm_num)]
    norm_num
  have t3 : truncToZero (3 : ℚ) = 3 := by simpa using truncToZero_intCast 3
  have t5 : truncToZero (-5 : ℚ) = -5 := by simpa using truncToZero_intCast (-5)
  constructor
  · exact grid2world_eval _ _ 3 (-5) (3 / 4) (-5 / 4) a1 (by simpa using a2)
      (by simpa [planner0, samplePlanner] using a3)
      (by simpa [planner0, samplePlanner] using a4)
      (by norm_num [abs_lt]) (by norm_num [abs_lt]) (by norm_num [abs_lt])
      (by norm_num [abs_lt])
  · apply world2grid_eq_some_of
    · simp only [planner0, samplePlanner, a5, t3]
    · simp only [planner0, samplePlanner, a6, t5]
    · norm_num
    · norm_num

/-- Snapping one coordinate: the cell index is defined, the snapped coordinate is finite, lies
between `0` and `a * (1 + 2^-22)`, and is less than `r + |a| / 2^22` away from `a`. -/
theorem snap_coordinate {r i a : ℚ} (hr1 : (2 : ℚ) ^ (-126 : ℤ) ≤ r) (hr2 : r ≤ 2 ^ 100)
    (hR : |r * i - 1| ≤ 1 / 2 ^ 24) (ha : |a * i| ≤ 2 ^ 24) :
    ∃ g : ℤ, floatToInt (F32.mul (F32.fin a) (F32.fin i)) = some g ∧
      ∃ s : ℚ, (F32.mul (intToFloat g) (F32.fin r)).value = some s ∧
        ((0 ≤ s ∧ s ≤ a * (1 + 1 / 2 ^ 22)) ∨ (a * (1 + 1 / 2 ^ 22) ≤ s ∧ s ≤ 0)) ∧
        |a - s| < r + |a| / 2 ^ 22 := by
  have hr : 0 < r := lt_of_lt_of_le (by positivity) hr1
  obtain ⟨hi, hRl, hRu⟩ := inverse_resolution_pos hr hR
  obtain ⟨x1, hx1⟩ : ∃ x1, x1 = round32 (a * i) := ⟨_, rfl⟩
  obtain ⟨g, hg⟩ : ∃ g, g = truncToZero x1 := ⟨_, rfl⟩
  obtain ⟨s, hs⟩ : ∃ s, s = round32 ((g : ℚ) * r) := ⟨_, rfl⟩
  have hA := abs_nonneg a
  have hqabs : |a * i| = |a| * i := by rw [abs_mul, abs_of_pos hi]
  -- the rounded product and the cell index stay below `2^24`
  have hb : binade (a * i) ≤ 24 :=
    binade_le_of_abs_lt (by norm_num) (lt_of_le_of_lt ha (by norm_num))
  have hx1b : |x1| ≤ 2 ^ 24 := by
    have := abs_round32_le_of_abs_le (q := a * i) (k := 24) 1 (by omega)
      (by norm_num at ha ⊢; exact ha)
    rw [hx1]
    norm_num at this ⊢
    exact this
  have hgx : |(g : ℚ)| ≤ |x1| := by
    rw [hg]
    exact abs_truncToZero_le x1
  have hgq : |(g : ℚ)| ≤ 2 ^ 24 := hgx.trans hx1b
  have hgz : |g| ≤ 2 ^ 24 := by exact_mod_cast hgq
  have hgr : -2 ^ 31 ≤ g ∧ g < 2 ^ 31 := by
    have := abs_le.mp hgz
    constructor <;> omega
  have hgrb : |(g : ℚ) * r| ≤ 2 ^ 127 := by
    rw [abs_mul, abs_of_pos hr]
    calc |(g : ℚ)| * r ≤ 2 ^ 24 * 2 ^ 100 := mul_le_mul hgq hr2 hr.le (by norm_num)
      _ ≤ 2 ^ 127 := by norm_num
  have hnear : |x1 - (g : ℚ)| < 1 := by
    rw [hg]
    exact (truncToZero_toward_zero x1).2
  have hsg : |s - (g : ℚ) * r| ≤ |(g : ℚ) * r| / 2 ^ 24 := by
    rw [hs]
    exact round32_int_mul_rel hr1 g
  have hgabs : |(g : ℚ) * r| = |(g : ℚ)| * r := by rw [abs_mul, abs_of_pos hr]
  -- the snapped coordinate has the sign of `a`
  have hsign : (0 ≤ a → 0 ≤ s) ∧ (a ≤ 0 → s ≤ 0) := by
    have htz := (truncToZero_toward_zero x1).1
    rw [← hg] at htz
    constructor
    · intro h0
      have h1 : 0 ≤ x1 := by
        rw [hx1]
        exact round32_nonneg (mul_nonneg h0 hi.le)
      have h2 : (0 : ℚ) ≤ (g : ℚ) := by
        rcases htz with ⟨h, -⟩ | ⟨h, -⟩
        · exact h
        · exact h1.trans h
      rw [hs]
      exact round32_nonneg (mul_nonneg h2 hr.le)
    · intro h0
      have h1 : x1 ≤ 0 := by
        rw [hx1]
        exact round32_nonpos (mul_nonpos_of_nonpos_of_nonneg h0 hi.le)
      have h2 : (g : ℚ) ≤ 0 := by
        rcases htz with ⟨-, h⟩ | ⟨-, h⟩
        · exact h.trans h1
        · exact h
      rw [hs]
      exact round32_nonpos (mul_nonpos_of_nonpos_of_nonneg h2 hr.le)
  have hAri : |a| * (r * i) = |a * i| * r := by
    rw [hqabs]
    ring
  have key : |s| ≤ |a| * (1 + 1 / 2 ^ 22) ∧ |a - s| < r + |a| / 2 ^ 22 := by
    rcases lt_or_le |a * i| ((2 : ℚ) ^ (-126 : ℤ)) with hsub | hnorm
    · -- below the normal range the cell index is zero
      have e1 : |x1 - a * i| ≤ (2 : ℚ) ^ (-150 : ℤ) := by
        rw [hx1]
        exact round32_abs hsub
      have e2 : |x1| < 1 := by
        have := abs_le_of_abs_sub_le e1
        norm_num at this hsub ⊢
        linarith
      have hg0 : g = 0 := by
        have h0 : |x1 - ((0 : ℤ) : ℚ)| < 1 := by simpa using e2
        rcases truncToZero_of_near h0 with h | h
        · rw [hg, h]
        · rw [hg, h]
          simp
      have hs0 : s = 0 := by
        rw [hs, hg0]
        simp [round32_zero]
      have e3 : |a| * (1 - 1 / 2 ^ 24) ≤ |a * i| * r := by
        rw [← hAri]
        exact mul_le_mul_of_nonneg_left hRl hA
      have e4 : |a * i| * r ≤ (2 : ℚ) ^ (-126 : ℤ) * r :=
        mul_le_mul_of_nonneg_right hsub.le hr.le
      rw [hs0]
      constructor
      · simp only [abs_zero]
        exact mul_nonneg hA (by norm_num)
      · rw [sub_zero]
        norm_num at e3 e4 ⊢
        linarith
    · -- in the normal range every rounding is accurate to one part in `2^24`
      have e1 : |x1 - a * i| ≤ |a * i| / 2 ^ 24 := by
        rw [hx1]
        exact round32_rel hnorm
      have hQ : |a * i| * r ≤ |a| * (1 + 1 / 2 ^ 24) := by
        rw [← hAri]
        exact mul_le_mul_of_nonneg_left hRu hA
      have hX : |x1| * r ≤ |a * i| * r * (1 + 1 / 2 ^ 24) := by
        have := abs_le_of_abs_sub_le e1
        have h2 : |x1| ≤ |a * i| * (1 + 1 / 2 ^ 24) := by linarith
        calc |x1| * r ≤ |a * i| * (1 + 1 / 2 ^ 24) * r := mul_le_mul_of_nonneg_right h2 hr.le
          _ = |a * i| * r * (1 + 1 / 2 ^ 24) := by ring
      have hG : |(g : ℚ)| * r ≤ |x1| * r := mul_le_mul_of_nonneg_right hgx hr.le
      have hQ0 : 0 ≤ |a * i| * r := mul_nonneg (abs_nonneg _) hr.le
      have d1 : |a - a * i * r| ≤ |a| / 2 ^ 24 := by
        have e : a - a * i * r = -(a * (r * i - 1)) := by ring
        rw [e, abs_neg, abs_mul]
        calc |a| * |r * i - 1| ≤ |a| * (1 / 2 ^ 24) := mul_le_mul_of_nonneg_left hR hA
          _ = |a| / 2 ^ 24 := by ring
      have d2 : |(a * i - x1) * r| ≤ |a * i| * r / 2 ^ 24 := by
        rw [abs_mul, abs_of_pos hr, abs_sub_comm]
        calc |x1 - a * i| * r ≤ |a * i| / 2 ^ 24 * r := mul_le_mul_of_nonneg_right e1 hr.le
          _ = |a * i| * r / 2 ^ 24 := by ring
      have d3 : |(x1 - (g : ℚ)) * r| < r := by
        rw [abs_mul, abs_of_pos hr]
        calc |x1 - (g : ℚ)| * r < 1 * r := mul_lt_mul_of_pos_right hnear hr
          _ = r := one_mul r
      have d4 : |(g : ℚ) * r - s| ≤ |(g : ℚ)| * r / 2 ^ 24 := by
        rw [abs_sub_comm, ← hgabs]
        exact hsg
      constructor
      · have := abs_le_of_abs_sub_le hsg
        rw [hgabs] at this
        norm_num at this hQ hX hG ⊢
        linarith
      · have e : a - s = (a - a * i * r) + (a * i - x1) * r + (x1 - (g : ℚ)) * r
            + ((g : ℚ) * r - s) := by ring
        have t : |a - s| ≤ |a - a * i * r| + |(a * i - x1) * r| + |(x1 - (g : ℚ)) * r|
            + |(g : ℚ) * r - s| := by
          rw [e]
          exact (abs_add _ _).trans (add_le_add_right
            ((abs_add _ _).trans (add_le_add_right (abs_add _ _) _)) _)
        norm_num at d1 d2 d4 hQ hX hG ⊢
        linarith
  refine ⟨g, (floatToInt_mul_eq_some_iff _ _ _).mpr ⟨by rw [hg, hx1], hgr.1, hgr.2⟩, s,
    by rw [hs]; exact grid2world_coordinate hgz hgrb, ?_, key.2⟩
  rcases le_total 0 a with h0 | h0
  · left
    refine ⟨hsign.1 h0, ?_⟩
    have := key.1
    rw [abs_of_nonneg (hsign.1 h0), abs_of_nonneg h0] at this
    exact this
  · right
    refine ⟨?_, hsign.2 h0⟩
    have := key.1
    rw [abs_of_nonpos (hsign.2 h0), abs_of_nonpos h0] at this
    linarith


/-- Claim C8, as stated, fails on both counts, with `_map_inverse_resolution` the binary32
reciprocal of the resolution.  Direction: with resolution `0.05f = 13421773 / 2^28`, inverse
resolution `20` and `p.x = -3.85f = -8074035 / 2^21`, the product `p.x * 20` rounds to `-77`,
the cell is `-77`, and `grid2world` gives `-16148071 / 2^22 = -3.8500001…`, which is beyond
`p.x`, not between `0` and `p.x`.  Distance: with resolution `0.02f = 5368709 / 2^28`,
inverse resolution `50` and `p.x = 16.22f = 8503951 / 2^19`, the cell is `810` and
`grid2world` gives `8493465 / 2^19 = 16.199998…`, which is `0.02000045…` away from `p.x`,
more than the resolution. -/
theorem grid2world_world2grid_snap_counterexample :
    (round32 (1 / 20) = 13421773 / 268435456 ∧
      round32 (1 / (13421773 / 268435456)) = 20 ∧
      round32 (-385 / 100) = -8074035 / 2097152 ∧
      world2grid
          (samplePlanner (13421773 / 268435456) 20 Isometry2f.identity ⟨0, 0⟩
            State.WaitingForGoal) ⟨-8074035 / 2097152, 0⟩ = some ⟨-77, 0⟩ ∧
      grid2world
          (samplePlanner (13421773 / 268435456) 20 Isometry2f.identity ⟨0, 0⟩
            State.WaitingForGoal) ⟨-77, 0⟩ = some ⟨-16148071 / 4194304, 0⟩ ∧
      (-16148071 / 4194304 : ℚ) < -8074035 / 2097152 ∧ (-8074035 / 2097152 : ℚ) < 0) ∧
    (round32 (1 / 50) = 5368709 / 268435456 ∧
      round32 (1 / (5368709 / 268435456)) = 50 ∧
      round32 (1622 / 100) = 8503951 / 524288 ∧
      world2grid
          (samplePlanner (5368709 / 268435456) 50 Isometry2f.identity ⟨0, 0⟩
            State.WaitingForGoal) ⟨8503951 / 524288, 0⟩ = some ⟨810, 0⟩ ∧
      grid2world
          (samplePlanner (5368709 / 268435456) 50 Isometry2f.identity ⟨0, 0⟩
            State.WaitingForGoal) ⟨810, 0⟩ = some ⟨8493465 / 524288, 0⟩ ∧
      (5368709 / 268435456 : ℚ) < |8503951 / 524288 - 8493465 / 524288|) := by
  have z1 : round32 ((0 : ℤ) : ℚ) = 0 := by simpa using round32_zero
  have t0 : truncToZero (0 : ℚ) = 0 := by simpa using truncToZero_intCast 0
  have a0 : round32 (1 / 20) = 13421773 / 268435456 := by
    rw [round32_eq_of_near (e := -5) 13421773 (by norm_num) (by norm_num [abs_of_nonneg])
      (by norm_num [abs_lt]) (by norm_num [abs_lt])]
    norm_num
  have a1 : round32 (1 / (13421773 / 268435456)) = 20 := by
    rw [round32_eq_of_near (e := 4) 10485760 (by norm_num) (by norm_num [abs_of_nonneg])
      (by norm_num [abs_lt]) (by norm_num [abs_lt])]
    norm_num
  have a2 : round32 (-385 / 100) = -8074035 / 2097152 := by
    rw [round32_eq_of_near (e := 1) (-16148070) (by norm_num) (by norm_num [abs_of_neg])
      (by norm_num [abs_lt]) (by norm_num [abs_lt])]
    norm_num
  have a3 : round32 (-8074035 / 2097152 * 20) = -77 := by
    rw [round32_eq_of_near (e := 6) (-10092544) (by norm_num) (by norm_num [abs_of_neg])
      (by norm_num [abs_lt]) (by norm_num [abs_lt])]
    norm_num
  have a4 : round32 ((-77 : ℤ) : ℚ) = -77 := by
    simpa using round32_intCast (z := -77) (by norm_num [abs_le])
  have a5 : round32 (-77 * (13421773 / 268435456)) = -16148071 / 4194304 := by
    rw [round32_eq_of_near (e := 1) (-16148071) (by norm_num) (by norm_num [abs_of_neg])
      (by norm_num [abs_lt]) (by norm_num [abs_lt])]
    norm_num
  have ta : truncToZero (-77 : ℚ) = -77 := by simpa using truncToZero_intCast (-77)
  have b0 : round32 (1 / 50) = 5368709 / 268435456 := by
    rw [round32_eq_of_near (e := -6) 10737418 (by norm_num) (by norm_num [abs_of_nonneg])
      (by norm_num [abs_lt]) (by norm_num [abs_lt])]
    norm_num
  have b1 : round32 (1 / (5368709 / 268435456)) = 50 := by
    rw [round32_eq_of_near (e := 5) 13107200 (by norm_num) (by norm_num [abs_of_nonneg])
      (by norm_num [abs_lt]) (by norm_num [abs_lt])]
    norm_num
  have b2 : round32 (1622 / 100) = 8503951 / 524288 := by
    rw [round32_eq_of_near (e := 4) 8503951 (by norm_num) (by norm_num [abs_of_nonneg])
      (by norm_num [abs_lt]) (by norm_num [abs_lt])]
    norm_num
  have b3 : round32 (8503951 / 524288 * 50) = 13287423 / 16384 := by
    rw [round32_eq_of_near (e := 9) 13287423 (by norm_num) (by norm_num [abs_of_nonneg])
      (by norm_num [abs_lt]) (by norm_num [abs_lt])]
    norm_num
  have b4 : round32 ((810 : ℤ) : ℚ) = 810 := by
    simpa using round32_intCast (z := 810) (by norm_num [abs_le])
  have b5 : round32 (810 * (5368709 / 268435456)) = 8493465 / 524288 := by
    rw [round32_eq_of_near (e := 4) 8493465 (by norm_num) (by norm_num [abs_of_nonneg])
      (by norm_num [abs_lt]) (by norm_num [abs_lt])]
    norm_num
  have tb : truncToZero (13287423 / 16384 : ℚ) = 810 := by
    norm_num [truncToZero_eq, Int.floor_eq_iff]
  refine ⟨⟨a0, a1, a2, ?_, ?_, by norm_num, by norm_num⟩, b0, b1, b2, ?_, ?_, ?_⟩
  · apply world2grid_eq_some_of
    · simp only [samplePlanner, a3, ta]
    · simp only [samplePlanner, zero_mul, round32_zero, t0]
    · norm_num
    · norm_num
  · exact grid2world_eval _ _ (-77) 0 (-16148071 / 4194304) 0 (by simpa using a4) z1
      (by simpa [samplePlanner] using a5) (by simp [samplePlanner, round32_zero])
      (by norm_num [abs_lt]) (by norm_num) (by norm_num [abs_lt]) (by norm_num)
  · apply world2grid_eq_some_of
    · simp only [samplePlanner, b3, tb]
    · simp only [samplePlanner, zero_mul, round32_zero, t0]
    · norm_num
    · norm_num
  · exact grid2world_eval _ _ 810 0 (8493465 / 524288) 0 (by simpa using b4) z1
      (by simpa [samplePlanner] using b5) (by simp [samplePlanner, round32_zero])
      (by norm_num [abs_lt]) (by norm_num) (by norm_num [abs_lt]) (by norm_num)
  · norm_num [abs_of_nonneg]

/-- Claim C8, amended: snapping a world point to its cell moves it toward the origin by less
than one cell, up to the binary32 rounding of the three operations.  For every resolution `r`
that is a normal binary32 value between `2^-126` and `2^100`, every inverse resolution that
agrees with `1 / r` to binary32 accuracy (`|r * inv - 1| ≤ 2^-24`) and every finite world
point `p` whose scaled coordinates `p.x * inv`, `p.y * inv` are at most `2^24` in magnitude:
`world2grid p` is defined, `grid2world (world2grid p)` is a finite world point, and each of
its coordinates lies between `0` and the same coordinate of `p` times `1 + 2^-22`
(inclusive) and differs from that coordinate of `p` by strictly less than
`r + |p| / 2^22`. -/
theorem grid2world_world2grid_snap (P : Planner) (p : Vector2f)
    (hr1 : (2 : ℚ) ^ (-126 : ℤ) ≤ P._map_resolution) (hr2 : P._map_resolution ≤ 2 ^ 100)
    (hinv : |P._map_resolution * P._map_inverse_resolution - 1| ≤ 1 / 2 ^ 24)
    (hpx : |p.x * P._map_inverse_resolution| ≤ 2 ^ 24)
    (hpy : |p.y * P._map_inverse_resolution| ≤ 2 ^ 24) :
    ∃ c s, world2grid P p = some c ∧ grid2world P c = some s ∧
      (((0 ≤ s.x ∧ s.x ≤ p.x * (1 + 1 / 2 ^ 22)) ∨ (p.x * (1 + 1 / 2 ^ 22) ≤ s.x ∧ s.x ≤ 0)) ∧
        |p.x - s.x| < P._map_resolution + |p.x| / 2 ^ 22) ∧
      (((0 ≤ s.y ∧ s.y ≤ p.y * (1 + 1 / 2 ^ 22)) ∨ (p.y * (1 + 1 / 2 ^ 22) ≤ s.y ∧ s.y ≤ 0)) ∧
        |p.y - s.y| < P._map_resolution + |p.y| / 2 ^ 22) := by
  obtain ⟨gx, hgx, sx, hsx, hbx, hdx⟩ := snap_coordinate hr1 hr2 hinv hpx
  obtain ⟨gy, hgy, sy, hsy, hby, hdy⟩ := snap_coordinate hr1 hr2 hinv hpy
  exact ⟨⟨gx, gy⟩, ⟨sx, sy⟩, (world2grid_eq_some_iff P p ⟨gx, gy⟩).mpr ⟨hgx, hgy⟩,
    grid2world_eq_some_of P ⟨gx, gy⟩ sx sy hsx hsy, ⟨hbx, hdx⟩, ⟨hby, hdy⟩⟩

/-- Witness for C8: the map of resolution `1/4` (inverse resolution `4`) and the point
`(7/8, -7/8)`. -/
theorem grid2world_world2grid_snap_witness :
    (2 : ℚ) ^ (-126 : ℤ) ≤ planner0._map_resolution ∧
    planner0._map_resolution ≤ 2 ^ 100 ∧
    |planner0._map_resolution * planner0._map_inverse_resolution - 1| ≤ 1 / 2 ^ 24 ∧
    |(7 / 8 : ℚ) * planner0._map_inverse_resolution| ≤ 2 ^ 24 ∧
    |(-7 / 8 : ℚ) * planner0._map_inverse_resolution| ≤ 2 ^ 24 ∧
    ∃ c s, world2grid planner0 ⟨7 / 8, -7 / 8⟩ = some c ∧ grid2world planner0 c = some s ∧
      (((0 ≤ s.x ∧ s.x ≤ 7 / 8 * (1 + 1 / 2 ^ 22)) ∨
          (7 / 8 * (1 + 1 / 2 ^ 22) ≤ s.x ∧ s.x ≤ 0)) ∧
        |7 / 8 - s.x| < planner0._map_resolution + |(7 / 8 : ℚ)| / 2 ^ 22) ∧
      (((0 ≤ s.y ∧ s.y ≤ -7 / 8 * (1 + 1 / 2 ^ 22)) ∨
          (-7 / 8 * (1 + 1 / 2 ^ 22) ≤ s.y ∧ s.y ≤ 0)) ∧
        |-7 / 8 - s.y| < planner0._map_resolution + |(-7 / 8 : ℚ)| / 2 ^ 22) :=
  ⟨by norm_num [planner0, samplePlanner], by norm_num [planner0, samplePlanner],
   by norm_num [planner0, samplePlanner], by norm_num [planner0, samplePlanner, abs_le],
   by norm_num [planner0, samplePlanner, abs_le],
   grid2world_world2grid_snap planner0 ⟨7 / 8, -7 / 8⟩
     (by norm_num [planner0, samplePlanner]) (by norm_num [planner0, samplePlanner])
     (by norm_num [planner0, samplePlanner]) (by norm_num [planner0, samplePlanner, abs_le])
     (by norm_num [planner0, samplePlanner, abs_le])⟩


/-- The snapping of the point `(7/8, -7/8)` on the map of resolution `1/4`, evaluated: the cell
`(3, -3)` and the world point `(3/4, -3/4)`. -/
theorem grid2world_world2grid_planner0_value :
    world2grid planner0 ⟨7 / 8, -7 / 8⟩ = some ⟨3, -3⟩ ∧
      grid2world planner0 ⟨3, -3⟩ = some ⟨3 / 4, -3 / 4⟩ := by
  have a1 : round32 (7 / 8 * 4) = 7 / 2 := by
    rw [round32_eq_self_of_bounds (e := 1) 14680064 (by norm_num)
      (by norm_num [abs_of_nonneg]) (by norm_num [abs_lt]) (by norm_num)]
    norm_num
  have a2 : round32 (-7 / 8 * 4) = -7 / 2 := by
    rw [round32_eq_self_of_bounds (e := 1) (-14680064) (by norm_num)
      (by norm_num [abs_of_neg]) (by norm_num [abs_lt]) (by norm_num)]
    norm_num
  have a3 : round32 ((3 : ℤ) : ℚ) = 3 := round32_intCast (by norm_num)
  have a4 : round32 ((-3 : ℤ) : ℚ) = -3 := by
    simpa using round32_intCast (z := -3) (by norm_num [abs_le])
  have a5 : round32 (3 * (1 / 4)) = 3 / 4 := by
    rw [round32_eq_self_of_bounds (e := -1) 12582912 (by norm_num)
      (by norm_num [abs_of_nonneg]) (by norm_num [abs_lt]) (by norm_num)]
    norm_num
  have a6 : round32 (-3 * (1 / 4)) = -3 / 4 := by
    rw [round32_eq_self_of_bounds (e := -1) (-12582912) (by norm_num)
      (by norm_num [abs_of_neg]) (by norm_num [abs_lt]) (by norm_num)]
    norm_num
  constructor
  · apply world2grid_eq_some_of
    · simp only [planner0, samplePlanner, a1]
      norm_num [truncToZero_eq, Int.floor_eq_iff]
    · simp only [planner0, samplePlanner, a2]
      norm_num [truncToZero_eq, Int.ceil_eq_iff]
    · norm_num
    · norm_num
  · exact grid2world_eval _ _ 3 (-3) (3 / 4) (-3 / 4) a3 (by simpa using a4)
      (by simpa [planner0, samplePlanner] using a5)
      (by simpa [planner0, samplePlanner] using a6)
      (by norm_num [abs_lt]) (by norm_num [abs_lt]) (by norm_num [abs_lt])
      (by norm_num [abs_lt])

/-! ## Planner state and velocities -/

/-- Claim C5: the planner state is one of exactly six pairwise distinct values,
`WaitingForMap`, `WaitingForGoal`, `GoalAccepted`, `PathFound`, `PathNotFound`, `GoalReached`;
the `State` type has no other value. -/
theorem State_exactly_six :
    (∀ s : State,
        s = State.WaitingForMap ∨ s = State.WaitingForGoal ∨ s = State.GoalAccepted ∨
          s = State.PathFound ∨ s = State.PathNotFound ∨ s = State.GoalReached) ∧
      List.Pairwise (fun a b : State => a ≠ b)
        [State.WaitingForMap, State.WaitingForGoal, State.GoalAccepted, State.PathFound,
          State.PathNotFound, State.GoalReached] := by
  constructor
  · intro s
    cases s <;> simp
  · decide

/-- Claim C6: `cancelGoal`, called in any of the six states, leaves the planner in state
`WaitingForGoal` with velocities `(0, 0)` and an empty path. -/
theorem cancelGoal_effect (P : Planner) (s : State) :
    (cancelGoal { P with _state := s })._state = State.WaitingForGoal ∧
      velocities (cancelGoal { P with _state := s }) = ⟨0, 0⟩ ∧
      (cancelGoal { P with _state := s })._path = [] :=
  ⟨rfl, rfl, rfl⟩

/-! ## Path-map parameters -/

/-- Claim C9: each path-map parameter setter stores exactly its argument and touches nothing
else.  After `setMaxCost x`, `maxCost()` returns `x` and `minCost()`, `robotRadius()`,
`safetyRegion()`, `velocities()` and the state are unchanged; likewise for
`setMinCost`/`minCost`, `setRobotRadius`/`robotRadius` and `setSafetyRegion`/`safetyRegion`. -/
theorem setters_store_and_frame (P : Planner) (x : ℚ) :
    (maxCost (setMaxCost P x) = x ∧ minCost (setMaxCost P x) = minCost P ∧
      robotRadius (setMaxCost P x) = robotRadius P ∧
      safetyRegion (setMaxCost P x) = safetyRegion P ∧
      velocities (setMaxCost P x) = velocities P ∧ (setMaxCost P x)._state = P._state) ∧
    (minCost (setMinCost P x) = x ∧ maxCost (setMinCost P x) = maxCost P ∧
      robotRadius (setMinCost P x) = robotRadius P ∧
      safetyRegion (setMinCost P x) = safetyRegion P ∧
      velocities (setMinCost P x) = velocities P ∧ (setMinCost P x)._state = P._state) ∧
    (robotRadius (setRobotRadius P x) = x ∧ maxCost (setRobotRadius P x) = maxCost P ∧
      minCost (setRobotRadius P x) = minCost P ∧
      safetyRegion (setRobotRadius P x) = safetyRegion P ∧
      velocities (setRobotRadius P x) = velocities P ∧
      (setRobotRadius P x)._state = P._state) ∧
    (safetyRegion (setSafetyRegion P x) = x ∧ maxCost (setSafetyRegion P x) = maxCost P ∧
      minCost (setSafetyRegion P x) = minCost P ∧
      robotRadius (setSafetyRegion P x) = robotRadius P ∧
      velocities (setSafetyRegion P x) = velocities P ∧
      (setSafetyRegion P x)._state = P._state) :=
  ⟨⟨rfl, rfl, rfl, rfl, rfl, rfl⟩, ⟨rfl, rfl, rfl, rfl, rfl, rfl⟩,
   ⟨rfl, rfl, rfl, rfl, rfl, rfl⟩, ⟨rfl, rfl, rfl, rfl, rfl, rfl⟩⟩

/-- The stored planner after a setter differs from the one before in the written member only. -/
theorem setters_change_one_member (P : Planner) (x : ℚ) :
    setMaxCost (setMaxCost P x) P._max_cost = P ∧
      setMinCost (setMinCost P x) P._min_cost = P ∧
      setRobotRadius (setRobotRadius P x) P._robot_radius = P ∧
      setSafetyRegion (setSafetyRegion P x) P._safety_region = P :=
  ⟨rfl, rfl, rfl, rfl⟩

/-- The scenario planner satisfies the parameter invariant. -/
theorem paramInvariant_planner0 : paramInvariant planner0 :=
  ⟨by norm_num [planner0, samplePlanner], by norm_num [planner0, samplePlanner],
   WithTop.coe_lt_top _, by norm_num [planner0, samplePlanner],
   by norm_num [planner0, samplePlanner]⟩

/-- Claim C4, as stated, fails: the scenario planner (`min_cost = 0`, `max_cost = 100`,
`robot_radius = 1/4`, `safety_region = 1/2`) satisfies the parameter invariant, and after
`setMinCost(-1)` it does not: the setter stores any argument unchecked. -/
theorem paramInvariant_counterexample :
    paramInvariant planner0 ∧ ¬ paramInvariant (setMinCost planner0 (-1)) := by
  constructor
  · exact paramInvariant_planner0
  · norm_num [paramInvariant, setMinCost, planner0, samplePlanner]

/-- Claim C4, amended: a parameter setter preserves the invariant
`0 ≤ min_cost ≤ max_cost < +∞`, `robot_radius ≥ 0`, `safety_region ≥ 0` exactly when its
argument fits the invariant in place of the member it overwrites.  For every planner that
satisfies the invariant and every `x`: after `setMinCost x` it holds iff `0 ≤ x ≤ max_cost`,
after `setMaxCost x` iff `min_cost ≤ x`, after `setRobotRadius x` iff `0 ≤ x`, after
`setSafetyRegion x` iff `0 ≤ x`. -/
theorem paramInvariant_setters (P : Planner) (x : ℚ) (h : paramInvariant P) :
    (paramInvariant (setMinCost P x) ↔ 0 ≤ x ∧ x ≤ P._max_cost) ∧
    (paramInvariant (setMaxCost P x) ↔ P._min_cost ≤ x) ∧
    (paramInvariant (setRobotRadius P x) ↔ 0 ≤ x) ∧
    (paramInvariant (setSafetyRegion P x) ↔ 0 ≤ x) := by
  obtain ⟨h1, h2, h3, h4, h5⟩ := h
  refine ⟨?_, ?_, ?_, ?_⟩
  · constructor
    · rintro ⟨a, b, -, -, -⟩
      exact ⟨a, b⟩
    · rintro ⟨a, b⟩
      exact ⟨a, b, h3, h4, h5⟩
  · constructor
    · rintro ⟨-, b, -, -, -⟩
      exact b
    · intro b
      exact ⟨h1, b, WithTop.coe_lt_top x, h4, h5⟩
  · constructor
    · rintro ⟨-, -, -, d, -⟩
      exact d
    · intro d
      exact ⟨h1, h2, h3, d, h5⟩
  · constructor
    · rintro ⟨-, -, -, -, e⟩
      exact e
    · intro e
      exact ⟨h1, h2, h3, h4, e⟩

/-- Witness for C4: the scenario planner and the argument `5`. -/
theorem paramInvariant_setters_witness :
    paramInvariant planner0 ∧
    ((paramInvariant (setMinCost planner0 5) ↔ 0 ≤ (5 : ℚ) ∧ (5 : ℚ) ≤ planner0._max_cost) ∧
      (paramInvariant (setMaxCost planner0 5) ↔ planner0._min_cost ≤ 5) ∧
      (paramInvariant (setRobotRadius planner0 5) ↔ 0 ≤ (5 : ℚ)) ∧
      (paramInvariant (setSafetyRegion planner0 5) ↔ 0 ≤ (5 : ℚ))) :=
  ⟨paramInvariant_planner0, paramInvariant_setters planner0 5 paramInvariant_planner0⟩

/-! ## Cost curve -/

/-- The bounding function is monotone in its first argument. -/
theorem clamp_mono {a b : ℚ} (lo hi : ℚ) (h : a ≤ b) : clamp a lo hi ≤ clamp b lo hi :=
  max_le_max le_rfl (min_le_min h le_rfl)

/-- The cost curve is non-increasing in the distance when `min_cost ≤ max_cost` and
`R_robot ≤ R_safe`. -/
theorem costCurve_antitone (P : Planner) (hc : P._min_cost ≤ P._max_cost)
    (hR : R_robot P ≤ R_safe P) {d1 d2 : ℚ} (h : d1 ≤ d2) :
    costCurve P d2 ≤ costCurve P d1 := by
  unfold costCurve
  have hden : 0 ≤ R_safe P - R_robot P := sub_nonneg.mpr hR
  have hq : (R_safe P - d2) / (R_safe P - R_robot P)
      ≤ (R_safe P - d1) / (R_safe P - R_robot P) :=
    div_le_div_of_nonneg_right (by linarith) hden
  have hm := mul_le_mul_of_nonneg_left (clamp_mono 0 1 hq) (sub_nonneg.mpr hc)
  linarith

/-- The cost curve takes the value `max_cost` at `R_robot` and `min_cost` at `R_safe`. -/
theorem costCurve_endpoints (P : Planner) (hR : R_robot P < R_safe P) :
    costCurve P (R_robot P) = P._max_cost ∧ costCurve P (R_safe P) = P._min_cost := by
  have hne : R_safe P - R_robot P ≠ 0 := ne_of_gt (sub_pos.mpr hR)
  constructor
  · simp [costCurve, clamp, div_self hne]
  · simp [costCurve, clamp]

/-- Claim C7: cost monotonicity.  For every `min_cost ≤ max_cost` and `R_robot < R_safe`, the
cost curve `min_cost + (max_cost − min_cost) · clamp((R_safe − d)/(R_safe − R_robot), 0, 1)`
built from the planner's parameters is non-increasing in `d` over `[R_robot, R_safe]`, so is
the cost field value, and the cost is `+∞` for `d` below `R_robot`. -/
theorem cost_monotone (P : Planner) (hc : P._min_cost ≤ P._max_cost)
    (hR : R_robot P < R_safe P) :
    (∀ d1 d2 : ℚ, R_robot P ≤ d1 → d1 ≤ d2 → d2 ≤ R_safe P →
        costCurve P d2 ≤ costCurve P d1) ∧
    (∀ d1 d2 : ℚ, R_robot P ≤ d1 → d1 ≤ d2 → d2 ≤ R_safe P → cost P d2 ≤ cost P d1) ∧
    (∀ d : ℚ, d < R_robot P → cost P d = ⊤) := by
  refine ⟨fun d1 d2 _ h12 _ => costCurve_antitone P hc hR.le h12, ?_, ?_⟩
  · intro d1 d2 _ h12 h2
    by_cases hd1 : d1 ≤ R_robot P
    · have e : cost P d1 = ⊤ := by simp [cost, hd1]
      rw [e]
      exact le_top
    · have hd2 : ¬ d2 ≤ R_robot P := fun hle => hd1 (h12.trans hle)
      have e1 : cost P d1 = ((costCurve P d1 : ℚ) : WithTop ℚ) := by
        simp [cost, hd1, h12.trans h2]
      have e2 : cost P d2 = ((costCurve P d2 : ℚ) : WithTop ℚ) := by
        simp [cost, hd2, h2]
      rw [e1, e2]
      exact WithTop.coe_le_coe.mpr (costCurve_antitone P hc hR.le h12)
  · intro d hd
    simp [cost, hd.le]

/-- Witness for C7: the scenario planner, with `min_cost = 0 ≤ 100 = max_cost` and
`R_robot = 1/4 < 3/4 = R_safe`. -/
theorem cost_monotone_witness :
    planner0._min_cost ≤ planner0._max_cost ∧ R_robot planner0 < R_safe planner0 ∧
    ((∀ d1 d2 : ℚ, R_robot planner0 ≤ d1 → d1 ≤ d2 → d2 ≤ R_safe planner0 →
        costCurve planner0 d2 ≤ costCurve planner0 d1) ∧
      (∀ d1 d2 : ℚ, R_robot planner0 ≤ d1 → d1 ≤ d2 → d2 ≤ R_safe planner0 →
        cost planner0 d2 ≤ cost planner0 d1) ∧
      (∀ d : ℚ, d < R_robot planner0 → cost planner0 d = ⊤)) :=
  ⟨by norm_num [planner0, samplePlanner],
   by norm_num [R_robot, R_safe, planner0, samplePlanner],
   cost_monotone planner0 (by norm_num [planner0, samplePlanner])
     (by norm_num [R_robot, R_safe, planner0, samplePlanner])⟩

/-- The cost curve of the scenario planner half way through the safety region: `50`. -/
theorem costCurve_planner0_value : costCurve planner0 (1 / 2) = 50 := by
  norm_num [costCurve, clamp, R_robot, R_safe, planner0, samplePlanner]

end srrg_planner
